import Mathlib

/-!
Verification development for the DMX datamodel codec
(`io_scene_valvesource/datamodel.py`).

The Python module serializes typed, possibly cyclic element graphs to a
binary encoding (versions 1-5), a legacy `binary_proto` encoding
(version 2) and a textual `keyvalues2` encoding (version 1).  This file
shallowly embeds the data model and the reader/writer routines that the
claims under scrutiny exercise, and proves or refutes each claim.

Modelling conventions:
* Python `float` values are modelled as exact rationals; the four bytes
  of an IEEE-754 float32 on the wire are kept symbolic (`WByte.f32`),
  since no claim inspects their numeric content.
* Elements reference one another by their 128-bit id (a `Nat`), matching
  the source where `Element.__eq__`/`__hash__` identify elements by id.
* Unbounded recursions of the source (graph walks over possibly cyclic
  graphs) are embedded with an explicit fuel argument; the relevant
  theorems show that a fuel of `g.length` suffices.
-/

-- Propositional equality of `Except` results is decidable when both
-- components are.
deriving instance DecidableEq for Except

namespace Dmx

/-- A byte of writer output.  `raw n` is a concrete byte value; `f32 q i`
is byte `i` of the IEEE-754 float32 encoding of the float modelled by the
rational `q` (kept symbolic: no claim depends on float byte values). -/
inductive WByte where
  | raw : Nat → WByte
  | f32 : ℚ → Fin 4 → WByte
deriving DecidableEq, Repr

/-- The Python exceptions raised by the codec, by class. -/
inductive Err where
  | typeError
  | valueError
  | structError
  | assertionError
  | attributeError
  | unicodeError
  | idCollision
  | unsupported
  | ioError
  | indexError
  | headerError
  | recursionError
deriving DecidableEq, Repr

/-- The closed set of DMX attribute values (`_dmxtypes_all` plus the
`None` element reference).  Element references are stored as the id of
the referenced element; floats are exact rationals. -/
inductive Value where
  | elem : Option Nat → Value
  | int : Int → Value
  | float : ℚ → Value
  | bool : Bool → Value
  | str : String → Value
  | binary : List Nat → Value
  | time : ℚ → Value
  | color : List ℚ → Value
  | vector2 : List ℚ → Value
  | vector3 : List ℚ → Value
  | vector4 : List ℚ → Value
  | angle : List ℚ → Value
  | quaternion : List ℚ → Value
  | matrix : List (List ℚ) → Value
  | elemArray : List Nat → Value
  | intArray : List Int → Value
  | floatArray : List ℚ → Value
  | boolArray : List Bool → Value
  | strArray : List String → Value
  | binaryArray : List (List Nat) → Value
  | timeArray : List ℚ → Value
  | colorArray : List (List ℚ) → Value
  | vector2Array : List (List ℚ) → Value
  | vector3Array : List (List ℚ) → Value
  | vector4Array : List (List ℚ) → Value
  | angleArray : List (List ℚ) → Value
  | quaternionArray : List (List ℚ) → Value
deriving DecidableEq, Repr

/-- An element: id, name, type tag, placeholder flag and the ordered
attribute mapping (`collections.OrderedDict`, insertion order). -/
structure Elem where
  id : Nat
  name : String
  type : String
  is_placeholder : Bool
  attrs : List (String × Value)
deriving DecidableEq, Repr

/-- The `DataModel` container: format name, format version and the flat
list of elements in insertion order (`self.elements`; the first element
added is `self.root`). -/
structure DataModel where
  format : String
  format_ver : Int
  elements : List Elem
deriving DecidableEq, Repr

/-- The root of a datamodel is the first element added. -/
def DataModel.root (dm : DataModel) : Option Elem := dm.elements.head?

/-- Element-reference slots of a single attribute value: a scalar
`Element` attribute contributes its target, an element array contributes
each entry in order, everything else contributes nothing
(`None` references contribute nothing, matching the `type(attr)` tests). -/
def valueTargets : Value → List Nat
  | .elem (some t) => [t]
  | .elemArray ts => ts
  | _ => []

/-- All element-reference slots of an element, in attribute insertion
order (array entries expanded in order). -/
def elemTargets (e : Elem) : List Nat :=
  (e.attrs.map (fun p => valueTargets p.2)).flatten

/-- Look an element up by id in a datamodel's element list (first match,
as Python's id comparisons find the first element with that id). -/
def find_elem (g : List Elem) (i : Nat) : Option Elem :=
  g.find? (fun e => e.id == i)

/-- `list_support()`: the supported encoding/version matrix. -/
def list_support (encoding : String) : Option (List Nat) :=
  if encoding = "binary" then some [1, 2, 3, 4, 5]
  else if encoding = "keyvalues2" then some [1]
  else if encoding = "binary_proto" then some [2]
  else none

/-- `check_support(encoding, encoding_ver)`: raises `ValueError` for an
unknown encoding or an unsupported version of a known encoding. -/
def check_support (encoding : String) (encoding_ver : Nat) : Except Err Unit :=
  match list_support encoding with
  | none => .error .unsupported
  | some versions =>
      if encoding_ver ∈ versions then .ok () else .error .unsupported

/-! Byte-level packing primitives (`struct.pack` / the `get_*` readers). -/

/-- The four little-endian bytes of `n` taken modulo 2^32 (two's
complement layout of `struct.pack("i", n)` for in-range `n`). -/
def int32_bytes (n : Int) : List WByte :=
  let m : Nat := (n % 4294967296).toNat
  [.raw (m % 256), .raw (m / 256 % 256), .raw (m / 65536 % 256), .raw (m / 16777216 % 256)]

/-- `struct.pack("i", n)`: 4 little-endian bytes, `struct.error` when out
of the int32 range. -/
def pack_i32 (n : Int) : Except Err (List WByte) :=
  if -2147483648 ≤ n ∧ n < 2147483648 then .ok (int32_bytes n) else .error .structError

/-- `struct.pack("H", n)`: 2 little-endian bytes, `struct.error` when out
of the uint16 range. -/
def pack_u16 (n : Nat) : Except Err (List WByte) :=
  if n < 65536 then .ok [.raw (n % 256), .raw (n / 256)] else .error .structError

/-- `struct.pack("b", n)`: 1 byte, `struct.error` when out of the signed
char range (the codec only packs the non-negative type ids this way). -/
def pack_i8 (n : Int) : Except Err (List WByte) :=
  if 0 ≤ n ∧ n < 128 then .ok [.raw n.toNat] else .error .structError

/-- The symbolic four bytes of `struct.pack("f", q)`. -/
def f32_bytes (q : ℚ) : List WByte := [.f32 q 0, .f32 q 1, .f32 q 2, .f32 q 3]

/-- The byte sequence of `_encode_binary_string`: the ASCII codes of the
characters followed by a NUL terminator. -/
def inline_str (s : String) : List WByte :=
  s.data.map (fun c => .raw c.toNat) ++ [.raw 0]

/-- `_encode_binary_string(string)`: ASCII-encode and NUL-terminate;
`bytes(string, 'ASCII')` raises for non-ASCII input. -/
def encode_binary_string (s : String) : Except Err (List WByte) :=
  if s.data.all (fun c => c.toNat < 128) then .ok (inline_str s) else .error .unicodeError

/-- `get_short(file)`: read a little-endian uint16. -/
def get_short : List WByte → Except Err (Nat × List WByte)
  | .raw a :: .raw b :: r => .ok (a + 256 * b, r)
  | _ => .error .ioError

/-- `get_int(file)`: read a little-endian int32 (two's complement). -/
def get_int : List WByte → Except Err (Int × List WByte)
  | .raw a :: .raw b :: .raw c :: .raw d :: r =>
      let m : Nat := a + 256 * b + 65536 * c + 16777216 * d
      .ok (if m < 2147483648 then (m : Int) else (m : Int) - 4294967296, r)
  | _ => .error .ioError

/-- Character list of `get_str`: read bytes up to a NUL terminator.  At
end of input the source would loop on the empty read; modelled as an
I/O error (never reached in the theorems below). -/
def get_str_chars : List WByte → Except Err (List Char × List WByte)
  | [] => .error .ioError
  | .raw n :: r =>
      if n = 0 then .ok ([], r)
      else
        match get_str_chars r with
        | .ok (cs, r') => .ok (Char.ofNat n :: cs, r')
        | .error e => .error e
  | .f32 _ _ :: _ => .error .unicodeError

/-- `get_str(file)`: read a NUL-terminated ASCII string. -/
def get_str (bs : List WByte) : Except Err (String × List WByte) :=
  match get_str_chars bs with
  | .ok (cs, r) => .ok (String.mk cs, r)
  | .error e => .error e

/-- Python's `list.index` (first match) for string lists. -/
def list_index : List String → String → Nat
  | [], _ => 0
  | x :: xs, s => if x = s then 0 else list_index xs s + 1

/-! The string dictionary (`_StringDictionary`). -/

/-- The state of a `_StringDictionary`: dummy flag, the two
version-dependent field-width flags and the table entries. -/
structure StrDict where
  dummy : Bool
  indice_short : Bool
  length_short : Bool
  entries : List String
deriving DecidableEq, Repr

/-- The `_StringDictionary.__init__` parameter selection: binary version
1 and `binary_proto` are dummy dictionaries; version 4 uses a 16-bit
index with a 32-bit count; versions 2-3 use 16 bits for both; version 5
(the default branch) uses 32 bits for both. -/
def make_string_dict (encoding : String) (encoding_ver : Nat) (entries : List String) :
    StrDict :=
  if encoding = "binary_proto" then ⟨true, false, false, []⟩
  else if encoding_ver = 4 then ⟨false, true, false, entries⟩
  else if encoding_ver = 3 ∨ encoding_ver = 2 then ⟨false, true, true, entries⟩
  else if encoding_ver = 1 then ⟨true, false, false, []⟩
  else ⟨false, false, false, entries⟩

/-- `_StringDictionary.write_string`: dummy dictionaries write the string
inline; otherwise `assert(string in self)` and the index of the string is
packed with the version's index width. -/
def StrDict.write_string (d : StrDict) (s : String) : Except Err (List WByte) :=
  if d.dummy then encode_binary_string s
  else if s ∈ d.entries then
    if d.indice_short then pack_u16 (list_index d.entries s)
    else pack_i32 (list_index d.entries s)
  else .error .assertionError

/-- `_StringDictionary.read_string`: dummy dictionaries read inline;
otherwise an index of the version's width is read and looked up. -/
def StrDict.read_string (d : StrDict) (bs : List WByte) :
    Except Err (String × List WByte) :=
  if d.dummy then get_str bs
  else
    match (if d.indice_short then get_short bs
           else match get_int bs with
                | .ok (n, r) => .ok (n.toNat, r)
                | .error e => .error e : Except Err (Nat × List WByte)) with
    | .ok (idx, r) =>
        match d.entries.get? idx with
        | some s => .ok (s, r)
        | none => .error .indexError
    | .error e => .error e

/-- Two sequential `self.out.write` calls: concatenate the outputs,
the first error aborting the write. -/
def wcat (a b : Except Err (List WByte)) : Except Err (List WByte) :=
  match a, b with
  | .ok x, .ok y => .ok (x ++ y)
  | .error e, _ => .error e
  | _, .error e => .error e

/-- Encode a list of strings, each NUL-terminated. -/
def encode_strings : List String → Except Err (List WByte)
  | [] => .ok []
  | s :: ss => wcat (encode_binary_string s) (encode_strings ss)

/-- `_StringDictionary.write_dictionary`: nothing for a dummy dictionary,
otherwise the entry count (at the version's count width) followed by the
NUL-terminated entries. -/
def StrDict.write_dictionary (d : StrDict) : Except Err (List WByte) :=
  if d.dummy then .ok []
  else
    wcat (if d.length_short then pack_u16 d.entries.length
          else pack_i32 d.entries.length)
      (encode_strings d.entries)

/-- Read `n` NUL-terminated strings. -/
def read_strings : Nat → List WByte → Except Err (List String × List WByte)
  | 0, bs => .ok ([], bs)
  | n + 1, bs =>
      match get_str bs with
      | .ok (s, r) =>
          match read_strings n r with
          | .ok (ss, r') => .ok (s :: ss, r')
          | .error e => .error e
      | .error e => .error e

/-- The reading half of `_StringDictionary.__init__` for a non-dummy
dictionary: read the count at the given width, then that many
NUL-terminated entries. -/
def read_dict_payload (length_short : Bool) (bs : List WByte) :
    Except Err (List String × List WByte) :=
  match (if length_short then get_short bs
         else match get_int bs with
              | .ok (n, r) => .ok (n.toNat, r)
              | .error e => .error e : Except Err (Nat × List WByte)) with
  | .ok (n, r) => read_strings n r
  | .error e => .error e

/-! The multiplicity-counting pass (`_count_child_elems` in `DataModel.echo`). -/

/-- The counting state: `out_elems` as the list of visited element ids,
and the `_users` counters as a function from id to count. -/
abbrev CountSt := List Nat × (Nat → Nat)

/-- Increment the `_users` counter of element `t`. -/
def bump (us : Nat → Nat) (t : Nat) : Nat → Nat :=
  fun i => if i = t then us t + 1 else us i

/-- One slot step of `_count_child_elems`: if the referenced element is
not yet in `out_elems`, recurse into it (via `rec`); then increment its
`_users` counter. -/
def count_step_f (g : List Elem) (rec : CountSt → Elem → CountSt)
    (st : CountSt) (t : Nat) : CountSt :=
  if t ∈ st.1 then (st.1, bump st.2 t)
  else
    match find_elem g t with
    | some te => ((rec st te).1, bump (rec st te).2 t)
    | none => (st.1, bump st.2 t)

/-- `_count_child_elems(elem)`: append the element to `out_elems`, then
process each element-reference slot in attribute order.  The fuel bounds
the recursion depth; `g.length` suffices (proved below). -/
def count_visit (g : List Elem) : Nat → CountSt → Elem → CountSt
  | 0, st, _ => st
  | fuel + 1, st, e =>
      (elemTargets e).foldl (count_step_f g (count_visit g fuel)) (st.1 ++ [e.id], st.2)

/-- The whole counting pass of `DataModel.echo`: reset every `_users`
counter to zero, then walk from the root.  The first component is
`out_elems` (ids in depth-first discovery order), the second the
recomputed `_users` counters. -/
def count_users (g : List Elem) (root : Elem) : CountSt :=
  count_visit g g.length ([], fun _ => 0) root

/-- Total slot contributions of a list of elements towards target `t`. -/
def slot_sum (L : List Elem) (t : Nat) : Nat :=
  (L.map (fun x => (elemTargets x).count t)).sum

/-- Number of attribute slots of the element with id `i` whose value is
the element with id `t` (0 when `i` does not exist). -/
def slot_count (g : List Elem) (i t : Nat) : Nat :=
  match find_elem g i with
  | some e => (elemTargets e).count t
  | none => 0

/-- Reachability along element-reference slots, starting from the id `r`. -/
inductive Reach (g : List Elem) (r : Nat) : Nat → Prop
  | refl : Reach g r r
  | step {b c : Nat} {e : Elem} :
      Reach g r b → e ∈ g → e.id = b → c ∈ elemTargets e → Reach g r c

/-- Well-formedness: element ids are pairwise distinct (the data-model
invariant; Python elements are distinct objects compared by id). -/
def idsNodup (g : List Elem) : Prop := (g.map (fun e => e.id)).Nodup

/-- Well-formedness: every element-reference slot points at an element of
the list (guaranteed in Python, where attribute values hold the element
objects themselves and `__setitem__` imports them). -/
def closedGraph (g : List Elem) : Prop :=
  ∀ e ∈ g, ∀ t ∈ elemTargets e, ∃ y ∈ g, y.id = t

instance (g : List Elem) : Decidable (idsNodup g) := by
  unfold idsNodup; infer_instance

instance (g : List Elem) : Decidable (closedGraph g) := by
  unfold closedGraph; infer_instance

/-! The string-dictionary build pass (`_StringDictionary.__init__`,
`out_datamodel` branch / `process_element`). -/

/-- Add a string to the collected set (modelled as an insertion-ordered
duplicate-free list; the source uses an unordered `set`, whose
enumeration order the spec leaves unconstrained). -/
def dict_insert (l : List String) (s : String) : List String :=
  if s ∈ l then l else l ++ [s]

/-- One attribute step of `process_element`: collect the attribute key,
a scalar string value, and recurse into unchecked referenced elements. -/
def build_step_f (g : List Elem)
    (rec : List Nat × List String → Elem → List Nat × List String)
    (st : List Nat × List String) (p : String × Value) :
    List Nat × List String :=
  let st1 := (st.1, dict_insert st.2 p.1)
  match p.2 with
  | .str s => (st1.1, dict_insert st1.2 s)
  | .elem (some t) =>
      if t ∈ st1.1 then st1
      else
        match find_elem g t with
        | some te => rec st1 te
        | none => st1
  | .elemArray ts =>
      ts.foldl (fun st t =>
        if t ∈ st.1 then st
        else
          match find_elem g t with
          | some te => rec st te
          | none => st) st1
  | _ => st1

/-- `process_element(elem)`: mark the element checked, collect its name
and type, then process every attribute.  Strings inside string arrays
are not collected (`elif type(attr) == str` only sees scalars). -/
def build_strings (g : List Elem) : Nat → (List Nat × List String) → Elem →
    List Nat × List String
  | 0, st, _ => st
  | fuel + 1, st, e =>
      e.attrs.foldl (build_step_f g (build_strings g fuel))
        (st.1 ++ [e.id], dict_insert (dict_insert st.2 e.name) e.type)

/-- The dictionary contents collected for a write of the given graph. -/
def build_dict_entries (g : List Elem) (root : Elem) : List String :=
  (build_strings g g.length ([], []) root).2

/-! UUID rendering (`uuid.UUID` byte layout and string form). -/

/-- One lowercase hex digit. -/
def hex_digit (n : Nat) : Char :=
  if n < 10 then Char.ofNat (48 + n) else Char.ofNat (87 + n)

/-- `len`-digit zero-padded lowercase hex of `n` (most significant first). -/
def hex_nat (len n : Nat) : List Char :=
  (List.range len).map (fun k => hex_digit (n / 16 ^ (len - 1 - k) % 16))

/-- `str(uuid)`: the 8-4-4-4-12 dashed lowercase hex form of the 128-bit
value. -/
def uuid_str (id : Nat) : String :=
  let h := hex_nat 32 id
  String.mk (h.take 8) ++ "-" ++ String.mk ((h.drop 8).take 4) ++ "-" ++
    String.mk ((h.drop 12).take 4) ++ "-" ++ String.mk ((h.drop 16).take 4) ++ "-" ++
    String.mk (h.drop 20)

/-- The big-endian byte `k` (0 = most significant) of the 128-bit id. -/
def uuid_be (id k : Nat) : Nat := id / 256 ^ (15 - k) % 256

/-- `uuid.bytes_le`: the first three fields little-endian, the rest as in
the big-endian form. -/
def uuid_bytes_le (id : Nat) : List WByte :=
  ([3, 2, 1, 0, 5, 4, 7, 6, 8, 9, 10, 11, 12, 13, 14, 15].map
    (fun k => WByte.raw (uuid_be id k)))

/-! Time values (`class Time(float)`), modelled over exact rationals. -/

/-- Python `int()` truncation toward zero of a rational. -/
def rat_py_int (q : ℚ) : Int := q.num.tdiv q.den

/-- `Time.tobytes`: `struct.pack("i", int(self * 10000))`. -/
def time_tobytes (q : ℚ) : Except Err (List WByte) :=
  pack_i32 (rat_py_int (q * 10000))

/-- `Time.from_int`: `Time(int_value / 10000)`. -/
def time_from_int (n : Int) : ℚ := (n : ℚ) / 10000

/-- The binary reader's Time branch: `Time.from_int(get_int(in_file))`. -/
def read_time (bs : List WByte) : Except Err (ℚ × List WByte) :=
  match get_int bs with
  | .ok (n, r) => .ok (time_from_int n, r)
  | .error e => .error e

/-! The binary writer (`DataModel._write`, `_write_element_index`,
`_write_element_props`, `DataModel.echo`). -/

/-- The per-write state of `DataModel.echo`: requested encoding, version
and `self._string_dict` (which `echo` only assigns for encoding
`"binary"`; `none` models the attribute being absent, so that using it
raises `AttributeError` as in the source). -/
structure WCtx where
  encoding : String
  encoding_ver : Nat
  string_dict : Option StrDict
deriving DecidableEq, Repr

/-- The string branch of `_write`: `suppress_dict` writes inline,
otherwise the string goes through `self._string_dict`. -/
def write_str_dispatch (d : Option StrDict) (suppress : Bool) (s : String) :
    Except Err (List WByte) :=
  if suppress then encode_binary_string s
  else
    match d with
    | none => .error .attributeError
    | some d => d.write_string s

/-- `_get_dmx_type_id`: slot of a value's type in the version's type
table.  `useV1` selects the legacy table (binary versions 1-2 and
`binary_proto`), where the `Time` slots hold the `ObjectID` placeholders
and `Time` values are unsupported. -/
def type_slot (useV1 : Bool) : Value → Except Err Int
  | .elem _ => .ok 1
  | .int _ => .ok 2
  | .float _ => .ok 3
  | .bool _ => .ok 4
  | .str _ => .ok 5
  | .binary _ => .ok 6
  | .time _ => if useV1 then .error .valueError else .ok 7
  | .color _ => .ok 8
  | .vector2 _ => .ok 9
  | .vector3 _ => .ok 10
  | .vector4 _ => .ok 11
  | .angle _ => .ok 12
  | .quaternion _ => .ok 13
  | .matrix _ => .ok 14
  | .elemArray _ => .ok 15
  | .intArray _ => .ok 16
  | .floatArray _ => .ok 17
  | .boolArray _ => .ok 18
  | .strArray _ => .ok 19
  | .binaryArray _ => .ok 20
  | .timeArray _ => if useV1 then .error .valueError else .ok 21
  | .colorArray _ => .ok 22
  | .vector2Array _ => .ok 23
  | .vector3Array _ => .ok 24
  | .vector4Array _ => .ok 25
  | .angleArray _ => .ok 26
  | .quaternionArray _ => .ok 27

/-- `_get_dmx_type_id(encoding, version, t)`. -/
def dmx_type_id (encoding : String) (ver : Nat) (v : Value) : Except Err Int :=
  if encoding = "keyvalues2" then .error .valueError
  else if encoding = "binary" then type_slot (ver = 1 ∨ ver = 2) v
  else if encoding = "binary_proto" then type_slot true v
  else .error .valueError

/-- `self.elem_chain.index(value)`: position of the element with the
given id in the chain (first match). -/
def chain_index : List Elem → Nat → Option Nat
  | [], _ => none
  | x :: xs, i => if x.id = i then some 0 else (chain_index xs i).map (· + 1)

/-- Append-concatenate writer outputs over a list, stopping at the first
error (sequential `self.out.write` calls). -/
def concat_write {α : Type} (f : α → Except Err (List WByte)) : List α → Except Err (List WByte)
  | [] => .ok []
  | x :: xs => wcat (f x) (concat_write f xs)

/-- Length prefix (`struct.pack("i", len(...))`) followed by a body. -/
def with_len (n : Nat) (body : Except Err (List WByte)) : Except Err (List WByte) :=
  wcat (pack_i32 (n : Int)) body

/-- The `Element` branch of `_write`: placeholders write the sentinel
(`-1` below version 5; `-2` plus the id string, routed through the
dictionary because `_write(str(value.id))` does not suppress it, at
version 5); other elements write their chain position. -/
def write_elem_ref (g : List Elem) (ctx : WCtx) (chain : List Elem) (t : Nat) :
    Except Err (List WByte) :=
  match find_elem g t with
  | none => .error .valueError
  | some te =>
      if te.is_placeholder then
        if ctx.encoding_ver < 5 then pack_i32 (-1)
        else
          match pack_i32 (-2), write_str_dispatch ctx.string_dict false (uuid_str te.id) with
          | .ok a, .ok b => .ok (a ++ b)
          | .error e, _ => .error e
          | _, .error e => .error e
      else
        match chain_index chain te.id with
        | some i => pack_i32 (i : Int)
        | none => .error .valueError

/-- `DataModel._write(value, elem, suppress_dict)` for attribute values.
`Color` values raise `TypeError` (`Color.tobytes` indexes the list with
its own float entries: `self[i]` with a float `i`); `Matrix` values
match no branch of `_write` and fall into the final `TypeError`; a bare
`None` likewise falls through to `TypeError` (the props writer tests
`attr == None` before calling `_write`). -/
def write_value (g : List Elem) (ctx : WCtx) (chain : List Elem) (suppress : Bool) :
    Value → Except Err (List WByte)
  | .elem none => .error .typeError
  | .elem (some t) => write_elem_ref g ctx chain t
  | .int n => pack_i32 n
  | .float q => .ok (f32_bytes q)
  | .bool b => .ok [.raw (if b then 1 else 0)]
  | .str s => write_str_dispatch ctx.string_dict suppress s
  | .binary bs => with_len bs.length (.ok (bs.map (fun n => WByte.raw (n % 256))))
  | .time q => time_tobytes q
  | .color _ => .error .typeError
  | .vector2 qs => .ok ((qs.map f32_bytes).flatten)
  | .vector3 qs => .ok ((qs.map f32_bytes).flatten)
  | .vector4 qs => .ok ((qs.map f32_bytes).flatten)
  | .angle qs => .ok ((qs.map f32_bytes).flatten)
  | .quaternion qs => .ok ((qs.map f32_bytes).flatten)
  | .matrix _ => .error .typeError
  | .elemArray ts => with_len ts.length (concat_write (write_elem_ref g ctx chain) ts)
  | .intArray ns => with_len ns.length (concat_write pack_i32 ns)
  | .floatArray qs => with_len qs.length (.ok ((qs.map f32_bytes).flatten))
  | .boolArray bs => with_len bs.length (.ok (bs.map (fun b => WByte.raw (if b then 1 else 0))))
  | .strArray ss => with_len ss.length (concat_write encode_binary_string ss)
  | .binaryArray ls =>
      with_len ls.length
        (concat_write (fun bs => with_len (List.length bs) (.ok (bs.map (fun n => WByte.raw (n % 256))))) ls)
  | .timeArray qs => with_len qs.length (concat_write time_tobytes qs)
  | .colorArray ls => with_len ls.length (concat_write (fun _ => .error .typeError) ls)
  | .vector2Array ls => with_len ls.length (.ok ((ls.map (fun qs => (qs.map f32_bytes).flatten)).flatten))
  | .vector3Array ls => with_len ls.length (.ok ((ls.map (fun qs => (qs.map f32_bytes).flatten)).flatten))
  | .vector4Array ls => with_len ls.length (.ok ((ls.map (fun qs => (qs.map f32_bytes).flatten)).flatten))
  | .angleArray ls => with_len ls.length (.ok ((ls.map (fun qs => (qs.map f32_bytes).flatten)).flatten))
  | .quaternionArray ls => with_len ls.length (.ok ((ls.map (fun qs => (qs.map f32_bytes).flatten)).flatten))

/-- One attribute of `_write_element_props`: dictionary-encoded key,
packed type id, then the value (`-1` for `None`, otherwise `_write` with
`suppress_dict = encoding_ver < 4`). -/
def write_attr (g : List Elem) (ctx : WCtx) (chain : List Elem) (p : String × Value) :
    Except Err (List WByte) :=
  match write_str_dispatch ctx.string_dict false p.1 with
  | .error e => .error e
  | .ok nb =>
      match dmx_type_id ctx.encoding ctx.encoding_ver p.2 with
      | .error e => .error e
      | .ok tid =>
          match pack_i8 tid with
          | .error e => .error e
          | .ok tb =>
              match (match p.2 with
                     | .elem none => pack_i32 (-1)
                     | v => write_value g ctx chain (decide (ctx.encoding_ver < 4)) v) with
              | .ok vb => .ok (nb ++ tb ++ vb)
              | .error e => .error e

/-- `_write_element_props`: for every chain element (placeholders
skipped), the attribute count then each attribute. -/
def write_element_props (g : List Elem) (ctx : WCtx) (chain : List Elem) :
    Except Err (List WByte) :=
  concat_write (fun e =>
    if e.is_placeholder then .ok []
    else with_len e.attrs.length (concat_write (write_attr g ctx chain) e.attrs)) chain

/-- The slot loop of `_write_element_index`: recurse (via `rec`) into
each referenced element not already in the chain. -/
def write_index_fold_f (g : List Elem)
    (rec : List WByte × List Elem → Elem → Except Err (List WByte × List Elem)) :
    List Nat → List WByte × List Elem → Except Err (List WByte × List Elem)
  | [], acc => .ok acc
  | t :: ts, acc =>
      match (if acc.2.any (fun x => x.id == t) then .ok acc
             else
               match find_elem g t with
               | some te => rec acc te
               | none => .ok acc : Except Err (List WByte × List Elem)) with
      | .ok acc' => write_index_fold_f g rec ts acc'
      | .error e => .error e

/-- `_write_element_index(elem)`: skip placeholders; write the
dictionary-encoded type, the name (inline below version 4), the 16
little-endian UUID bytes; append the element to the chain; then visit
the element-reference slots in order. -/
def write_element_index (g : List Elem) (ctx : WCtx) :
    Nat → List WByte × List Elem → Elem → Except Err (List WByte × List Elem)
  | 0, _, _ => .error .recursionError
  | fuel + 1, acc, e =>
      if e.is_placeholder then .ok acc
      else
        match write_str_dispatch ctx.string_dict false e.type with
        | .error err => .error err
        | .ok tb =>
            match write_str_dispatch ctx.string_dict (decide (ctx.encoding_ver < 4)) e.name with
            | .error err => .error err
            | .ok nb =>
                write_index_fold_f g (write_element_index g ctx fuel) (elemTargets e)
                  (acc.1 ++ tb ++ nb ++ uuid_bytes_le e.id, acc.2 ++ [e])

/-! The KeyValues2 writer (`Element.get_kv2`, `_Array.to_kv2`,
`_get_kv2_repr`, the keyvalues2 branch of `DataModel.echo`). -/

/-- `_get_kv2_indent()`. -/
def kv2_indent_str (n : Nat) : String := String.mk (List.replicate n '\t')

/-- `_quote(str)`. -/
def kv2_quote (s : String) : String := "\"" ++ s ++ "\""

/-- `_make_attr_str([a, b, c])` with all three items quoted. -/
def attr_line (ind : Nat) (a b c : String) : String :=
  kv2_indent_str ind ++ kv2_quote a ++ " " ++ kv2_quote b ++ " " ++ kv2_quote c ++ "\n"

/-- `_make_attr_str([a, b, c], is_array = True)`: the third item is not
quoted. -/
def attr_line_arr (ind : Nat) (a b c : String) : String :=
  kv2_indent_str ind ++ kv2_quote a ++ " " ++ kv2_quote b ++ " " ++ c ++ "\n"

/-- Zero-padded decimal rendering of `n` to `len` digits. -/
def dec_pad (len n : Nat) : String :=
  String.mk (List.replicate (len - (toString n).length) (Char.ofNat 48)) ++ toString n

/-- The two-step `rstrip("0").rstrip(".")` of the float formatter. -/
def strip_kv2_float (s : String) : String :=
  String.mk (((s.data.reverse.dropWhile (fun c => c = Char.ofNat 48)).dropWhile
    (fun c => c = Char.ofNat 46)).reverse)

/-- `"{:.10f}".format(var)` followed by the two rstrips.  Modelled as the
fixed 10-decimal rendering of the exact rational (round half away from
zero); the source formats the nearest IEEE double.  No theorem below
depends on this rendering. -/
def fmt10 (q : ℚ) : String :=
  let sign := if q < 0 then "-" else ""
  let scaled : Nat := (|q| * 10 ^ 10 + 1 / 2).floor.toNat
  sign ++ strip_kv2_float (toString (scaled / 10 ^ 10) ++ "." ++ dec_pad 10 (scaled % 10 ^ 10))

/-- `str(float)` (shortest-roundtrip repr in Python); modelled with the
fixed-decimal form.  Used only for `Time` and `Matrix` kv2 rendering, on
which no theorem below depends. -/
def py_float_repr (q : ℚ) : String := fmt10 q

/-- `binascii.hexlify` of a byte string. -/
def hexlify (bs : List Nat) : String :=
  String.mk ((bs.map (fun n => [hex_digit (n % 256 / 16), hex_digit (n % 16)])).flatten)

/-- `str` of a Python list of float lists (`Matrix` falls into the
`str(var)` branch of `_get_kv2_repr`). -/
def py_list_repr (rows : List (List ℚ)) : String :=
  "[" ++ String.intercalate ", " (rows.map (fun r =>
    "[" ++ String.intercalate ", " (r.map py_float_repr) ++ "]")) ++ "]"

/-- `_Array.to_kv2` for non-element arrays: items quoted, comma-joined. -/
def kv2_join_arr (items : List String) : String :=
  if items.isEmpty then "[ ]"
  else "[ " ++ String.intercalate ", " (items.map kv2_quote) ++ " ]"

/-- `_get_kv2_repr(var)` for every value except scalar elements handled
at the attribute level and element arrays (rendered by
`kv2_elem_arr_f`). -/
def kv2_value_repr : Value → String
  | .elem none => ""
  | .elem (some t) => uuid_str t
  | .int n => toString n
  | .float q => fmt10 q
  | .bool b => if b then "1" else "0"
  | .str s => s
  | .binary bs => hexlify bs
  | .time q => py_float_repr q
  | .color qs => String.intercalate " " (qs.map fmt10)
  | .vector2 qs => String.intercalate " " (qs.map fmt10)
  | .vector3 qs => String.intercalate " " (qs.map fmt10)
  | .vector4 qs => String.intercalate " " (qs.map fmt10)
  | .angle qs => String.intercalate " " (qs.map fmt10)
  | .quaternion qs => String.intercalate " " (qs.map fmt10)
  | .matrix rows => py_list_repr rows
  | .elemArray _ => ""
  | .intArray ns => kv2_join_arr (ns.map toString)
  | .floatArray qs => kv2_join_arr (qs.map fmt10)
  | .boolArray bs => kv2_join_arr (bs.map (fun b => if b then "1" else "0"))
  | .strArray ss => kv2_join_arr ss
  | .binaryArray ls => kv2_join_arr (ls.map hexlify)
  | .timeArray qs => kv2_join_arr (qs.map py_float_repr)
  | .colorArray ls => kv2_join_arr (ls.map (fun qs => String.intercalate " " (qs.map fmt10)))
  | .vector2Array ls => kv2_join_arr (ls.map (fun qs => String.intercalate " " (qs.map fmt10)))
  | .vector3Array ls => kv2_join_arr (ls.map (fun qs => String.intercalate " " (qs.map fmt10)))
  | .vector4Array ls => kv2_join_arr (ls.map (fun qs => String.intercalate " " (qs.map fmt10)))
  | .angleArray ls => kv2_join_arr (ls.map (fun qs => String.intercalate " " (qs.map fmt10)))
  | .quaternionArray ls => kv2_join_arr (ls.map (fun qs => String.intercalate " " (qs.map fmt10)))

/-- The kv2 type string of a value (`_dmxtypes_str`, arrays suffixed
`_array`, element arrays spelled `element_array`). -/
def kv2_type_str : Value → String
  | .elem _ => "element"
  | .int _ => "int"
  | .float _ => "float"
  | .bool _ => "bool"
  | .str _ => "string"
  | .binary _ => "binary"
  | .time _ => "time"
  | .color _ => "color"
  | .vector2 _ => "vector2"
  | .vector3 _ => "vector3"
  | .vector4 _ => "vector4"
  | .angle _ => "angle"
  | .quaternion _ => "quaternion"
  | .matrix _ => "matrix"
  | .elemArray _ => "element_array"
  | .intArray _ => "int_array"
  | .floatArray _ => "float_array"
  | .boolArray _ => "bool_array"
  | .strArray _ => "string_array"
  | .binaryArray _ => "binary_array"
  | .timeArray _ => "time_array"
  | .colorArray _ => "color_array"
  | .vector2Array _ => "vector2_array"
  | .vector3Array _ => "vector3_array"
  | .vector4Array _ => "vector4_array"
  | .angleArray _ => "angle_array"
  | .quaternionArray _ => "quaternion_array"

/-- Whether a value is one of the `_Array` types (selects the unquoted
third column of `_make_attr_str`). -/
def Value.is_arr : Value → Bool
  | .elemArray _ => true
  | .intArray _ => true
  | .floatArray _ => true
  | .boolArray _ => true
  | .strArray _ => true
  | .binaryArray _ => true
  | .timeArray _ => true
  | .colorArray _ => true
  | .vector2Array _ => true
  | .vector3Array _ => true
  | .vector4Array _ => true
  | .angleArray _ => true
  | .quaternionArray _ => true
  | _ => false

/-- `_ElementArray.to_kv2`: entries with `_users == 1` are inlined as
nested bodies, others become `"element" "<uuid>"` references. -/
def kv2_elem_arr_f (g : List Elem) (us : Nat → Nat) (rec : Nat → Elem → String)
    (ind : Nat) (ts : List Nat) : String :=
  if ts.isEmpty then "[ ]"
  else
    "\n" ++ kv2_indent_str ind ++ "[\n" ++
    String.intercalate ", \n" (ts.map (fun t =>
      match find_elem g t with
      | none => ""
      | some te =>
          if us t == 1 then kv2_indent_str (ind + 1) ++ rec (ind + 1) te
          else kv2_indent_str (ind + 1) ++ kv2_quote "element" ++ " " ++ kv2_quote (uuid_str t))) ++
    "\n" ++ kv2_indent_str ind ++ "]"

/-- One attribute of the `get_kv2` loop: `None` becomes an empty element
line; a scalar element with `_users < 2` is inlined as a nested body;
otherwise an ordinary attribute line. -/
def kv2_attr_f (g : List Elem) (us : Nat → Nat) (rec : Nat → Elem → String)
    (ind : Nat) (name : String) (v : Value) : String :=
  match v with
  | .elem none => attr_line ind name "element" ""
  | .elem (some t) =>
      match find_elem g t with
      | none => ""
      | some te =>
          if us t < 2 then
            kv2_indent_str ind ++ kv2_quote name ++ " " ++ rec ind te ++ "\n"
          else attr_line ind name "element" (uuid_str t)
  | .elemArray ts =>
      attr_line_arr ind name "element_array" (kv2_elem_arr_f g us rec ind ts)
  | v =>
      if v.is_arr then attr_line_arr ind name (kv2_type_str v) (kv2_value_repr v)
      else attr_line ind name (kv2_type_str v) (kv2_value_repr v)

/-- `Element.get_kv2`: quoted type, brace-delimited body with the id and
name lines followed by the attributes, at the given indent depth. -/
def get_kv2 (g : List Elem) (us : Nat → Nat) : Nat → Nat → Elem → String
  | 0, _, _ => ""
  | fuel + 1, ind, e =>
      kv2_quote e.type ++ "\n" ++ kv2_indent_str ind ++ "\x7b\n" ++
      attr_line (ind + 1) "id" "elementid" (uuid_str e.id) ++
      attr_line (ind + 1) "name" "string" e.name ++
      String.join (e.attrs.map (fun p => kv2_attr_f g us (get_kv2 g us fuel) (ind + 1) p.1 p.2)) ++
      kv2_indent_str ind ++ "\x7d"

/-- The ids whose full definitions the keyvalues2 branch of `echo` emits
after the root's block: the `out_elems` of the counting pass (depth-first
discovery order) filtered to `_users > 1`. -/
def kv2_trailing (g : List Elem) (root : Elem) : List Nat :=
  (count_users g root).1.filter (fun i => 1 < (count_users g root).2 i)

/-- The keyvalues2 body: the root's block, then the trailing full
definitions. -/
def echo_kv2_body (g : List Elem) (root : Elem) : String :=
  get_kv2 g (count_users g root).2 (g.length + 1) 0 root ++ "\n\n" ++
  String.join ((kv2_trailing g root).map (fun i =>
    match find_elem g i with
    | some e => get_kv2 g (count_users g root).2 (g.length + 1) 0 e ++ "\n\n"
    | none => ""))

/-! `DataModel.echo` itself. -/

/-- The dmx header line (`header_format`). -/
def dmx_header (encoding : String) (ver : Nat) (format : String) (fver : Int) : String :=
  "<!-- dmx encoding " ++ encoding ++ " " ++ toString ver ++ " format " ++
    format ++ " " ++ toString fver ++ " -->"

/-- The legacy proto header line (`header_proto2`). -/
def proto_header (ver : Nat) : String :=
  "<!-- DMXVersion binary_v" ++ toString ver ++ " -->"

/-- `echo` returns text for keyvalues2 and bytes for the binary
encodings. -/
inductive EchoOut where
  | bytes : List WByte → EchoOut
  | text : String → EchoOut
deriving DecidableEq, Repr

/-- `DataModel.echo(encoding, encoding_ver)`: version check first, then
header, string dictionary (built and written only for encoding
`"binary"`), the counting pass, and the encoding-specific body. -/
def echo (dm : DataModel) (encoding : String) (encoding_ver : Nat) : Except Err EchoOut :=
  match check_support encoding encoding_ver with
  | .error e => .error e
  | .ok _ =>
      match dm.elements.head? with
      | none => .error .typeError
      | some root =>
          let g := dm.elements
          if encoding = "keyvalues2" then
            .ok (.text (dmx_header encoding encoding_ver dm.format dm.format_ver ++ "\n" ++
              echo_kv2_body g root))
          else
            match (if encoding = "binary_proto" then
                     encode_binary_string (proto_header encoding_ver ++ "\n")
                   else
                     encode_binary_string
                       (dmx_header encoding encoding_ver dm.format dm.format_ver ++ "\n")) with
            | .error e => .error e
            | .ok hb =>
                let sdict : Option StrDict :=
                  if encoding = "binary" then
                    some (make_string_dict encoding encoding_ver (build_dict_entries g root))
                  else none
                match (match sdict with
                       | some d => d.write_dictionary
                       | none => .ok [] : Except Err (List WByte)) with
                | .error e => .error e
                | .ok db =>
                    let vis := (count_users g root).1
                    let ctx : WCtx := ⟨encoding, encoding_ver, sdict⟩
                    match pack_i32 (vis.length : Int) with
                    | .error e => .error e
                    | .ok cb =>
                        match write_element_index g ctx (g.length + 1) ([], []) root with
                        | .error e => .error e
                        | .ok (ib, chain) =>
                            match write_element_props g ctx chain with
                            | .error e => .error e
                            | .ok pb => .ok (.bytes (hb ++ db ++ cb ++ ib ++ pb))

/-! The binary reader fragments the claims exercise (`load`). -/

/-- The string branch of `get_value`: `get_str(in_file) if encoding_ver <
4 or from_array else dm._string_dict.read_string(in_file)`. -/
def get_value_str (ver : Nat) (d : StrDict) (from_array : Bool) (bs : List WByte) :
    Except Err (String × List WByte) :=
  if ver < 4 ∨ from_array then get_str bs else d.read_string bs

/-- Read `n` string-array entries (`get_value(str, from_array=True)`). -/
def read_str_items (ver : Nat) (d : StrDict) : Nat → List WByte →
    Except Err (List String × List WByte)
  | 0, bs => .ok ([], bs)
  | n + 1, bs =>
      match get_value_str ver d true bs with
      | .ok (s, r) =>
          match read_str_items ver d n r with
          | .ok (ss, r') => .ok (s :: ss, r')
          | .error e => .error e
      | .error e => .error e

/-- The string-array branch of the attribute reader: `array_len =
get_int(in_file)` then that many entries with `from_array=True`. -/
def read_str_array (ver : Nat) (d : StrDict) (bs : List WByte) :
    Except Err (List String × List WByte) :=
  match get_int bs with
  | .ok (n, r) => read_str_items ver d n.toNat r
  | .error e => .error e

/-! The header phase of `load` (header accumulation and version check). -/

/-- The header loop of `load`: accumulate characters one at a time until
the accumulated string ends with `>`; also returns the number of
characters consumed from the stream. -/
def read_header_chars : List Char → List Char → Option (List Char × Nat)
  | [], _ => none
  | c :: cs, acc =>
      if c = Char.ofNat 62 then some (acc ++ [c], acc.length + 1)
      else read_header_chars cs (acc ++ [c])

/-- Split a character list on spaces (word list of the header line). -/
def split_spaces : List Char → List (List Char)
  | [] => [[]]
  | c :: cs =>
      match split_spaces cs with
      | [] => [[]]
      | w :: ws => if c = Char.ofNat 32 then [] :: w :: ws else (c :: w) :: ws

/-- Decimal digit test (`[0-9]`). -/
def is_digit (c : Char) : Bool := 48 ≤ c.toNat && c.toNat ≤ 57

/-- Value of a decimal digit string. -/
def digits_to_nat (cs : List Char) : Nat :=
  cs.foldl (fun a c => a * 10 + (c.toNat - 48)) 0

/-- Parse a non-empty all-digit character list as a natural number. -/
def parse_nat (cs : List Char) : Option Nat :=
  if cs ≠ [] ∧ cs.all is_digit then some (digits_to_nat cs) else none

/-- The `header_format_regex` match, modelled for canonical headers:
`<!-- dmx encoding {enc} {ver} format {fmt} {fver} -->`. -/
def parse_dmx_header (h : List Char) : Option (String × Nat × String × Nat) :=
  match split_spaces h with
  | [a, b, c, enc, v, d, fmt, fv, e] =>
      if a = "<!--".data ∧ b = "dmx".data ∧ c = "encoding".data ∧
          d = "format".data ∧ e = "-->".data then
        match parse_nat v, parse_nat fv with
        | some ev, some fver => some (String.mk enc, ev, String.mk fmt, fver)
        | _, _ => none
      else none
  | _ => none

/-- The `header_proto2_regex` match, modelled for canonical headers. -/
def parse_proto_header (h : List Char) : Option Nat :=
  match split_spaces h with
  | [a, b, bv, e] =>
      if a = "<!--".data ∧ b = "DMXVersion".data ∧ e = "-->".data ∧
          "binary_v".data.isPrefixOf bv then
        parse_nat (bv.drop 8)
      else none
  | _ => none

/-- The part of `load` that runs before any payload byte is touched:
read the header (consuming its characters from the stream), match it
against the two header grammars, then `check_support`.  Returns the
outcome together with the number of characters consumed. -/
def load_start (input : List Char) : Except Err (String × Nat × String × Nat) × Nat :=
  match read_header_chars input [] with
  | none => (.error .headerError, input.length)
  | some (h, n) =>
      match parse_dmx_header h with
      | some (enc, ev, fmt, fv) =>
          (match check_support enc ev with
           | .ok _ => .ok (enc, ev, fmt, fv)
           | .error e => .error e, n)
      | none =>
          match parse_proto_header h with
          | some ev =>
              (match check_support "binary_proto" ev with
               | .ok _ => .ok ("binary_proto", ev, "undefined_format", 0)
               | .error e => .error e, n)
          | none => (.error .headerError, n)

/-! The collision-checked import (`Element.__setitem__` /
`import_element`). -/

/-- The mutable state the import touches: the target datamodel's element
list and the ids of source elements already marked as belonging to the
target (`elem._datamodels`). -/
structure ImportSt where
  target : List Elem
  marked : List Nat
deriving DecidableEq, Repr

/-- `import_element(elem)` for a single target datamodel: skip if the
element is already marked; raise `IDCollisionError` if any target
element (placeholder or not) has the same id; otherwise append the
element, mark it, and recursively import everything its element slots
reach.  Mutations made before a nested collision persist, as in the
source.  The fuel bounds recursion depth (`src.length + 1` suffices for
marked-guarded recursion). -/
def import_element (src : List Elem) : Nat → Elem → ImportSt → ImportSt × Option Err
  | 0, _, st => (st, some .recursionError)
  | fuel + 1, e, st =>
      if e.id ∈ st.marked then (st, none)
      else if st.target.any (fun x => x.id == e.id) then (st, some .idCollision)
      else
        (elemTargets e).foldl (fun acc t =>
          match acc.2 with
          | some _ => acc
          | none =>
              match find_elem src t with
              | some te => import_element src fuel te acc.1
              | none => (acc.1, some .attributeError))
          (⟨st.target ++ [e], st.marked ++ [e.id]⟩, none)

/-- `OrderedDict.__setitem__`: replace in place when the key exists, else
append. -/
def set_attr (attrs : List (String × Value)) (key : String) (v : Value) :
    List (String × Value) :=
  if attrs.any (fun p => p.1 == key) then
    attrs.map (fun p => if p.1 == key then (p.1, v) else p)
  else attrs ++ [(key, v)]

/-- The import phase of `Element.__setitem__`: for element-valued items,
recursively import the referenced graph into the owner's datamodel. -/
def set_item_import (src : List Elem) (fuel : Nat) (v : Value) (st : ImportSt) :
    ImportSt × Option Err :=
  match v with
  | .elem (some t) =>
      (match find_elem src t with
       | some te => import_element src fuel te st
       | none => (st, some .attributeError))
  | .elemArray ts =>
      ts.foldl (fun acc t =>
        match acc.2 with
        | some _ => acc
        | none =>
            match find_elem src t with
            | some te => import_element src fuel te acc.1
            | none => (acc.1, some .attributeError)) (st, none)
  | _ => (st, none)

/-- `Element.__setitem__(key, item)` for an owner already in the target
datamodel: run the import for element-valued items, then (only on
success) store the attribute.  The returned state carries whatever
the import mutated even when it failed. -/
def set_item (src : List Elem) (fuel : Nat) (owner : Elem) (key : String) (v : Value)
    (st : ImportSt) : (Elem × ImportSt) × Option Err :=
  match set_item_import src fuel v st with
  | (st', some err) => ((owner, st'), some err)
  | (st', none) =>
      ((⟨owner.id, owner.name, owner.type, owner.is_placeholder, set_attr owner.attrs key v⟩,
        st'), none)

/-! Element equality and hashing (`Element.__eq__` / `__hash__`). -/

/-- The truth value of `a == b`: `Element.__eq__` returns
`other and self.id == other.id`, so the comparison is falsy whenever
`other` is `None` or an attribute-less element (an empty dict is falsy),
and otherwise decides by id. -/
def py_elem_eq_truthy (a : Elem) (b : Option Elem) : Bool :=
  match b with
  | none => false
  | some b => if b.attrs.isEmpty then false else a.id == b.id

/-- `Element.__hash__`: `int(self.id)`. -/
def py_elem_hash (e : Elem) : Nat := e.id

/-- The duplicate probe of `DataModel.add_element`:
`self.elements.index(elem)` where `elem` is the freshly constructed
(attribute-less) element; a distinct stored element matches only if the
comparison is truthy. -/
def add_element_probe (elems : List Elem) (e : Elem) : Option Elem :=
  elems.find? (fun x => py_elem_eq_truthy x (some e))

/-! Breadth-first discovery order, modelled from the spec for comparison
with the writer's depth-first `out_elems` order. -/

/-- Modelled from the spec: "emitted once, flat, after the root, in
breadth-first discovery order" — the breadth-first discovery order of
element ids from a start id, with a fuel bound for cyclic graphs. -/
def spec_bfs_order (g : List Elem) : Nat → List Nat → List Nat → List Nat
  | 0, _, visited => visited
  | _ + 1, [], visited => visited
  | fuel + 1, q :: qs, visited =>
      if q ∈ visited then spec_bfs_order g fuel qs visited
      else
        match find_elem g q with
        | none => spec_bfs_order g fuel qs visited
        | some e => spec_bfs_order g fuel (qs ++ elemTargets e) (visited ++ [q])

/-- Modelled from the spec: the breadth-first discovery order starting
from the root. -/
def spec_bfs_discovery (g : List Elem) (root : Elem) : List Nat :=
  spec_bfs_order g (g.length * g.length + g.length + 1) [root.id] []

/-- Number of graph ids not yet visited (used to show that a fuel of
`g.length` suffices for the counting pass). -/
def unvisited_count (g : List Elem) (vis : List Nat) : Nat :=
  (g.map (fun e => e.id)).countP (fun i => decide (i ∉ vis))

/-! Concrete fixtures used by counterexamples and witnesses. -/

/-- A binary-version-2 dictionary holding a type tag and an element name. -/
def c2_dict : StrDict := ⟨false, true, true, ["DmElement", "root"]⟩

/-- Root of the keyvalues2 ordering fixture: references `A` once and `B`
twice. -/
def c4_root : Elem :=
  ⟨10, "r", "DmElement", false,
    [("a", .elem (some 11)), ("b", .elem (some 12)), ("b2", .elem (some 12))]⟩

/-- A graph on which depth-first and breadth-first discovery orders of
the multiply-referenced elements differ: the writer discovers `C` (id
13, referenced twice from `A`) before `B` (id 12, referenced twice from
the root), while breadth-first discovery finds `B` first. -/
def c4_graph : List Elem :=
  [c4_root,
   ⟨11, "A", "DmElement", false, [("c", .elem (some 13)), ("c2", .elem (some 13))]⟩,
   ⟨12, "B", "DmElement", false, []⟩,
   ⟨13, "C", "DmElement", false, []⟩]

/-- An element to import whose id collides with a placeholder. -/
def c6_elem : Elem := ⟨7, "kid", "DmElement", false, []⟩

/-- A target state whose only element is a placeholder with id 7. -/
def c6_target : ImportSt := ⟨[⟨7, "Missing element", "DmElement", true, []⟩], []⟩

/-- Source arena for the partial-import fixture: `P` (id 2) references
`Q` (id 7). -/
def c7_src : List Elem :=
  [⟨2, "P", "DmElement", false, [("c", .elem (some 7))]⟩,
   ⟨7, "Q", "DmElement", false, []⟩]

/-- Target state containing an element with id 7, so the nested import
of `Q` collides after `P` has already been appended. -/
def c7_target : ImportSt :=
  ⟨[⟨1, "root", "DmElement", false, []⟩, ⟨7, "X", "DmElement", false, []⟩], []⟩

/-- The owner element for the partial-import fixture. -/
def c7_owner : Elem := ⟨1, "root", "DmElement", false, []⟩

/-- An element with one attribute (truthy as a Python dict). -/
def c10_a : Elem := ⟨77, "a", "DmElement", false, [("x", .int 1)]⟩

/-- A distinct element with the same id but no attributes (falsy as a
Python dict). -/
def c10_b : Elem := ⟨77, "b", "DmeTest", false, []⟩

/-- Witness graph for the multiplicity theorem: a root with a child. -/
def c5_graph : List Elem :=
  [⟨0, "root", "DmElement", false, [("child", .elem (some 1))]⟩,
   ⟨1, "kid", "DmeTest", false, [("value", .int 42)]⟩]

/-- The root of `c5_graph`. -/
def c5_root : Elem := ⟨0, "root", "DmElement", false, [("child", .elem (some 1))]⟩

/-! Helper lemmas. -/

theorem find_elem_mem {g : List Elem} {t : Nat} {e : Elem} (h : find_elem g t = some e) :
    e ∈ g :=
  List.mem_of_find?_eq_some h

theorem find_elem_id {g : List Elem} {t : Nat} {e : Elem} (h : find_elem g t = some e) :
    e.id = t := by
  have := List.find?_some h
  simpa using this

theorem idsNodup_cons {y : Elem} {g : List Elem} (hn : idsNodup (y :: g)) :
    idsNodup g ∧ y.id ∉ g.map (fun e => e.id) := by
  unfold idsNodup at hn
  simp only [List.map_cons, List.nodup_cons] at hn
  exact ⟨hn.2, hn.1⟩

theorem find_elem_self {g : List Elem} (hn : idsNodup g) {e : Elem} (he : e ∈ g) :
    find_elem g e.id = some e := by
  induction g with
  | nil => cases he
  | cons y g ih =>
      rcases List.mem_cons.mp he with rfl | hmem
      · simp [find_elem]
      · have hparts := idsNodup_cons hn
        have hy : (y.id == e.id) = false := by
          simp only [beq_eq_false_iff_ne, ne_eq]
          intro hcontra
          exact hparts.2 (hcontra ▸ List.mem_map_of_mem (fun x => x.id) hmem)
        unfold find_elem at *
        simp only [List.find?_cons, hy]
        exact ih hparts.1 hmem

theorem ids_inj {g : List Elem} (hn : idsNodup g) {x y : Elem} (hx : x ∈ g) (hy : y ∈ g)
    (hid : x.id = y.id) : x = y := by
  have h1 : find_elem g x.id = some x := find_elem_self hn hx
  have h2 : find_elem g y.id = some y := find_elem_self hn hy
  rw [hid, h2] at h1
  exact (Option.some.injEq _ _ ▸ h1).symm

theorem wcat_ok (x y : List WByte) : wcat (.ok x) (.ok y) = .ok (x ++ y) := rfl

/-! Slot-sum arithmetic. -/

theorem slot_sum_nil (t : Nat) : slot_sum [] t = 0 := rfl

theorem slot_sum_cons (x : Elem) (L : List Elem) (t : Nat) :
    slot_sum (x :: L) t = (elemTargets x).count t + slot_sum L t := by
  simp [slot_sum]

theorem slot_sum_append (L1 L2 : List Elem) (t : Nat) :
    slot_sum (L1 ++ L2) t = slot_sum L1 t + slot_sum L2 t := by
  simp [slot_sum]

/-! C1.  The claim asserts the round-trip property for every graph and
every supported (encoding, version) pair.  The code cannot satisfy it:
`echo` assigns `self._string_dict` only for encoding `"binary"`, yet the
element-index writer routes every `elem.type` through
`self._string_dict`, so a `binary_proto` write of any graph raises
`AttributeError`; and `Color.tobytes` indexes the color list with its
own float entries, so writing any Color attribute under a binary
encoding raises `TypeError`. -/

/-- C1: evaluating the writer at the failing inputs.  Writing a minimal
one-element graph as `binary_proto` version 2 raises `AttributeError`
(no `_string_dict`), and writing a graph whose root carries a `Color`
attribute as binary version 5 raises `TypeError` (`Color.tobytes`), so
`read(write(G))` cannot round-trip every graph for every supported
pair. -/
theorem dmx_c1_write_crashes :
    echo ⟨"dmx", 1, [⟨5, "root", "DmElement", false, []⟩]⟩ "binary_proto" 2 =
      .error .attributeError ∧
    echo ⟨"dmx", 1, [⟨6, "root", "DmElement", false, [("tint", .color [0, 0, 0, 0])]⟩]⟩
      "binary" 5 = .error .typeError := by
  decide

/-! C9.  `Time(0.0001)` on the binary wire. -/

/-- C9: writing `Time(0.0001)` produces the int32 `1` on the wire
(seconds scaled by 10000), and reading that int32 back yields the Time
value `0.0001` — within the claimed 1e-4 absolute tolerance (here the
rational model recovers it exactly). -/
theorem dmx_c9_time_roundtrip :
    time_tobytes (1 / 10000) = .ok [.raw 1, .raw 0, .raw 0, .raw 0] ∧
    read_time [.raw 1, .raw 0, .raw 0, .raw 0] = .ok (1 / 10000, []) ∧
    |(1 / 10000 : ℚ) - 1 / 10000| ≤ 1 / 10000 := by
  refine ⟨?_, ?_, by norm_num⟩
  · have h : ((1 : ℚ) / 10000) * 10000 = 1 := by norm_num
    unfold time_tobytes
    rw [h]
    decide
  · have h : time_from_int 1 = 1 / 10000 := by norm_num [time_from_int]
    simp [read_time, get_int, h]

/-! C10.  `Element.__eq__` returns `other and self.id == other.id`, so
the comparison is falsy whenever the right operand is an attribute-less
element, even with equal ids. -/

/-- C10 counterexample: two distinct non-null elements with the same id
compare falsy because the right operand has no attributes (an empty
`OrderedDict` is falsy), refuting "a == b holds iff b is non-null and
a.id == b.id". -/
theorem dmx_c10_counterexample :
    c10_a.id = c10_b.id ∧ py_elem_eq_truthy c10_a (some c10_b) = false := by
  decide

/-- C10 amended: `a == b` is truthy iff `b` is non-null, has at least one
attribute, and shares `a`'s id; `hash(a)` is `int(a.id)`; consequently
`add_element`'s duplicate probe (whose needle is the freshly constructed,
attribute-less element) never finds a match, so that id-based lookup is
dead code. -/
theorem dmx_c10_amended :
    (∀ (a : Elem) (b : Option Elem),
      py_elem_eq_truthy a b = true ↔
        ∃ b', b = some b' ∧ b'.attrs ≠ [] ∧ a.id = b'.id) ∧
    (∀ a : Elem, py_elem_hash a = a.id) ∧
    (∀ (elems : List Elem) (e : Elem), e.attrs = [] →
      add_element_probe elems e = none) := by
  refine ⟨?_, fun _ => rfl, ?_⟩
  · intro a b
    cases b with
    | none => simp [py_elem_eq_truthy]
    | some b' =>
        by_cases hb : b'.attrs.isEmpty
        · simp [py_elem_eq_truthy, hb, List.isEmpty_iff.mp hb]
        · have hne : b'.attrs ≠ [] := by
            intro hcon
            exact hb (by simp [hcon])
          simp only [py_elem_eq_truthy, if_neg hb, beq_iff_eq, Option.some.injEq]
          constructor
          · intro h
            exact ⟨b', rfl, hne, h⟩
          · rintro ⟨b'', heq, _, hid⟩
            cases heq
            exact hid
  · intro elems e he
    unfold add_element_probe
    rw [List.find?_eq_none]
    intro x _
    simp [py_elem_eq_truthy, he]

/-- C10 witness: the amended equality characterization evaluated at the
fixture elements, and the dead duplicate probe on a concrete list. -/
theorem dmx_c10_witness :
    py_elem_eq_truthy c10_b (some c10_a) = true ∧
    add_element_probe [c10_a] c10_b = none := by
  constructor
  · exact (dmx_c10_amended.1 c10_b (some c10_a)).mpr ⟨c10_a, rfl, by decide, by decide⟩
  · exact dmx_c10_amended.2.2 [c10_a] c10_b (by decide)

/-! C6.  The import collision check (`import_element`) compares ids
against every element of the target datamodel with no placeholder
exemption. -/

/-- C6 counterexample: the target datamodel contains only a placeholder
with the imported element's id, yet the import raises
`IDCollisionError` (the claim says a placeholder match must succeed). -/
theorem dmx_c6_counterexample :
    import_element [c6_elem] 5 c6_elem c6_target = (c6_target, some .idCollision) ∧
    c6_target.target.all (fun x => x.is_placeholder) = true := by
  decide

/-- C6 amended: for an element not yet marked as belonging to the
target, the import raises `IDCollisionError` iff the target already
contains an element — placeholder or not — with the same id (placeholders
are not exempted and are not upgraded in place); with no same-id element
present, a childless element is appended and marked. -/
theorem dmx_c6_amended (src : List Elem) (fuel : Nat) (e : Elem) (st : ImportSt)
    (hm : e.id ∉ st.marked) :
    ((∃ x ∈ st.target, x.id = e.id) →
      import_element src (fuel + 1) e st = (st, some .idCollision)) ∧
    ((∀ x ∈ st.target, x.id ≠ e.id) → elemTargets e = [] →
      import_element src (fuel + 1) e st =
        (⟨st.target ++ [e], st.marked ++ [e.id]⟩, none)) := by
  constructor
  · intro hcol
    have hany : st.target.any (fun x => x.id == e.id) = true := by
      rcases hcol with ⟨x, hx, hid⟩
      exact List.any_eq_true.mpr ⟨x, hx, by simp [hid]⟩
    simp [import_element, hm, hany]
  · intro hno htgt
    have hany : st.target.any (fun x => x.id == e.id) = false := by
      rw [List.any_eq_false]
      intro x hx
      simp [hno x hx]
    simp [import_element, hm, hany, htgt]

/-- C6 witness: the amended theorem applied at the placeholder fixture
(collision side) and at an empty target (success side). -/
theorem dmx_c6_witness :
    import_element [c6_elem] 5 c6_elem ⟨[], []⟩ =
      (⟨[c6_elem], [c6_elem.id]⟩, none) :=
  (dmx_c6_amended [c6_elem] 4 c6_elem ⟨[], []⟩ (by decide)).2
    (by intro x hx; cases hx) (by decide)

/-! C7.  Failed imports are not rolled back: the importing recursion
appends an element to the target's element list before importing its
children, so a nested collision leaves the partial import in place. -/

/-- C7 counterexample: assigning `P` (which references `Q`, whose id
collides with a target element) raises `IDCollisionError`, yet the
target's element list has grown from ids `[1, 7]` to `[1, 7, 2]` — the
partially imported `P` remains, refuting "the element list is left
exactly as it was". -/
theorem dmx_c7_counterexample :
    (set_item c7_src 5 c7_owner "c2" (.elem (some 2)) c7_target).2 =
      some .idCollision ∧
    (set_item c7_src 5 c7_owner "c2" (.elem (some 2)) c7_target).1.2.target.map
      (fun e => e.id) = [1, 7, 2] ∧
    (set_item c7_src 5 c7_owner "c2" (.elem (some 2)) c7_target).1.2 ≠ c7_target := by
  decide

/-- C7 amended: when an attribute assignment fails, the owner element's
attribute map is unchanged (the assignment itself is never applied on
failure, `super().__setitem__` being reached only after a successful
import), but elements already imported before the nested collision
remain appended to the target datamodel's element list. -/
theorem dmx_c7_amended (src : List Elem) (fuel : Nat) (owner : Elem) (key : String)
    (v : Value) (st : ImportSt)
    (h : (set_item src fuel owner key v st).2.isSome = true) :
    (set_item src fuel owner key v st).1.1 = owner := by
  simp only [set_item] at h ⊢
  rcases hrun : set_item_import src fuel v st with ⟨st', oe⟩
  cases oe with
  | some err => rfl
  | none =>
      rw [hrun] at h
      simp at h

/-- C7 witness: the amended preservation applied at the concrete failing
import. -/
theorem dmx_c7_witness :
    (set_item c7_src 5 c7_owner "c2" (.elem (some 2)) c7_target).1.1 = c7_owner :=
  dmx_c7_amended c7_src 5 c7_owner "c2" (.elem (some 2)) c7_target (by decide)

/-! C8.  The support matrix is exactly as claimed and the write path
checks it before emitting anything, but the read path must consume the
header bytes before it can check the pair. -/

theorem read_header_chars_canonical (xs : List Char)
    (hxs : ∀ c ∈ xs, ¬ c = Char.ofNat 62) (rest : List Char) : ∀ acc,
    read_header_chars (xs ++ Char.ofNat 62 :: rest) acc =
      some (acc ++ xs ++ [Char.ofNat 62], (acc ++ xs).length + 1) := by
  induction xs with
  | nil =>
      intro acc
      simp [read_header_chars]
  | cons x xs ih =>
      intro acc
      have hx : ¬ x = Char.ofNat 62 := hxs x (by simp)
      simp only [List.cons_append, read_header_chars, if_neg hx, List.append_eq]
      rw [ih (fun c hc => hxs c (by simp [hc]))]
      simp [List.append_assoc, List.length_append]

/-- C8 counterexample: loading a stream whose header names the
unsupported pair (binary, 6) does raise the unsupported-version error,
but only after a non-zero number of bytes has been read from the stream
(the whole header), refuting "raised before any bytes are read". -/
theorem dmx_c8_counterexample :
    (load_start ("<!-- dmx encoding binary 6 format noname 1 -->".data)).1 =
      .error .unsupported ∧
    (load_start ("<!-- dmx encoding binary 6 format noname 1 -->".data)).2 ≠ 0 := by
  decide

/-- C8 amended: `check_support` accepts exactly binary 1-5, keyvalues2 1
and binary_proto 2; on the write path `echo` propagates the error before
any output is produced; on the read path an unsupported pair in a
canonical header fails with the unsupported error after consuming
exactly the header's characters (here 46), whatever payload follows. -/
theorem dmx_c8_amended :
    (∀ (encoding : String) (ver : Nat),
      check_support encoding ver = .ok () ↔
        ((encoding = "binary" ∧ (ver = 1 ∨ ver = 2 ∨ ver = 3 ∨ ver = 4 ∨ ver = 5)) ∨
         (encoding = "keyvalues2" ∧ ver = 1) ∨
         (encoding = "binary_proto" ∧ ver = 2))) ∧
    (∀ (dm : DataModel) (encoding : String) (ver : Nat) (e : Err),
      check_support encoding ver = .error e → echo dm encoding ver = .error e) ∧
    (∀ rest : List Char,
      load_start ("<!-- dmx encoding binary 6 format noname 1 --".data ++
          Char.ofNat 62 :: rest) = (.error .unsupported, 46)) := by
  refine ⟨?_, ?_, ?_⟩
  · intro encoding ver
    unfold check_support list_support
    split_ifs with h1 h2 h3 <;> simp_all [List.mem_cons] <;> omega
  · intro dm encoding ver e h
    unfold echo
    rw [h]
  · intro rest
    unfold load_start
    rw [read_header_chars_canonical _ (by decide) rest []]
    simp only [List.nil_append]
    decide

/-- C8 witness: the amended theorem applied at concrete pairs — an
accepted one, a rejected write, and the concrete read. -/
theorem dmx_c8_witness :
    check_support "binary" 3 = .ok () ∧
    echo ⟨"fmt", 1, []⟩ "xml" 1 = .error .unsupported ∧
    load_start ("<!-- dmx encoding binary 6 format noname 1 --".data ++
      Char.ofNat 62 :: []) = (.error .unsupported, 46) :=
  ⟨(dmx_c8_amended.1 "binary" 3).mpr (by decide),
   dmx_c8_amended.2.1 ⟨"fmt", 1, []⟩ "xml" 1 .unsupported (by decide),
   dmx_c8_amended.2.2 []⟩

/-! String encode/decode round-trip lemmas. -/

theorem get_str_chars_encode (cs : List Char) (rest : List WByte)
    (h : ∀ c ∈ cs, c.toNat < 128 ∧ c.toNat ≠ 0) :
    get_str_chars ((cs.map (fun c => WByte.raw c.toNat)) ++ .raw 0 :: rest) =
      .ok (cs, rest) := by
  induction cs with
  | nil => simp [get_str_chars]
  | cons c cs ih =>
      have hc := h c (by simp)
      have hrec := ih (fun c' hc' => h c' (by simp [hc']))
      simp only [List.map_cons, List.cons_append, get_str_chars, if_neg hc.2,
        List.append_eq, hrec, Char.ofNat_toNat]

theorem get_str_inline (s : String) (rest : List WByte)
    (h : ∀ c ∈ s.data, c.toNat < 128 ∧ c.toNat ≠ 0) :
    get_str (inline_str s ++ rest) = .ok (s, rest) := by
  unfold get_str inline_str
  rw [List.append_assoc, List.singleton_append]
  rw [get_str_chars_encode s.data rest h]

theorem encode_ok (s : String) (h : ∀ c ∈ s.data, c.toNat < 128) :
    encode_binary_string s = .ok (inline_str s) := by
  unfold encode_binary_string
  rw [if_pos]
  rw [List.all_eq_true]
  intro c hc
  simpa using h c hc

/-! Integer packing round-trips. -/

theorem get_short_pack (n : Nat) (h : n < 65536) (rest : List WByte) :
    pack_u16 n = .ok [.raw (n % 256), .raw (n / 256)] ∧
    get_short (.raw (n % 256) :: .raw (n / 256) :: rest) = .ok (n, rest) := by
  constructor
  · simp [pack_u16, h]
  · simp only [get_short, Except.ok.injEq, Prod.mk.injEq]
    exact ⟨by omega, trivial⟩

theorem get_int_int32 (n : Int) (h1 : -2147483648 ≤ n) (h2 : n < 2147483648)
    (rest : List WByte) : get_int (int32_bytes n ++ rest) = .ok (n, rest) := by
  unfold int32_bytes get_int
  simp only [List.cons_append, List.nil_append, Except.ok.injEq, Prod.mk.injEq]
  have hm1 : (((n % 4294967296).toNat : Int)) = n % 4294967296 :=
    Int.toNat_of_nonneg (Int.emod_nonneg n (by norm_num))
  have hm2 : (n % 4294967296).toNat < 4294967296 := by
    have := Int.emod_lt_of_pos n (show (0 : Int) < 4294967296 by norm_num)
    omega
  have hrec : (n % 4294967296).toNat % 256 + 256 * ((n % 4294967296).toNat / 256 % 256) +
      65536 * ((n % 4294967296).toNat / 65536 % 256) +
      16777216 * ((n % 4294967296).toNat / 16777216 % 256) = (n % 4294967296).toNat := by
    omega
  rw [hrec]
  split_ifs with hc
  · exact ⟨by omega, trivial⟩
  · exact ⟨by omega, trivial⟩

/-! `list.index` lemmas. -/

theorem list_index_lt {l : List String} {s : String} (h : s ∈ l) :
    list_index l s < l.length := by
  induction l with
  | nil => cases h
  | cons x xs ih =>
      unfold list_index
      by_cases hx : x = s
      · simp [hx]
      · have hmem : s ∈ xs := by
          rcases List.mem_cons.mp h with rfl | h'
          · exact absurd rfl hx
          · exact h'
        simpa [hx] using Nat.succ_lt_succ (ih hmem)

theorem list_index_get {l : List String} {s : String} (h : s ∈ l) :
    l[list_index l s]? = some s := by
  induction l with
  | nil => cases h
  | cons x xs ih =>
      unfold list_index
      by_cases hx : x = s
      · simp [hx]
      · have hmem : s ∈ xs := by
          rcases List.mem_cons.mp h with rfl | h'
          · exact absurd rfl hx
          · exact h'
        simpa [hx] using ih hmem

/-! C2 building blocks: dictionary write/read round-trips. -/

theorem strdict_resolve (d : StrDict) (hd : d.dummy = false) {s : String}
    (hs : s ∈ d.entries)
    (hw : d.indice_short = true → d.entries.length ≤ 65536)
    (hw' : d.indice_short = false → d.entries.length ≤ 2147483648) :
    ∃ bs, d.write_string s = .ok bs ∧
      ∀ rest, d.read_string (bs ++ rest) = .ok (s, rest) := by
  have hidx := list_index_lt hs
  unfold StrDict.write_string StrDict.read_string
  by_cases hshort : d.indice_short = true
  · have hfit : list_index d.entries s < 65536 :=
      Nat.lt_of_lt_of_le hidx (hw hshort)
    refine ⟨[.raw (list_index d.entries s % 256), .raw (list_index d.entries s / 256)],
      ?_, ?_⟩
    · simp [hd, hs, hshort, (get_short_pack _ hfit []).1]
    · intro rest
      simp only [hd, Bool.false_eq_true, if_false, hshort, if_true, List.cons_append,
        List.nil_append]
      rw [(get_short_pack _ hfit rest).2]
      simp [list_index_get hs]
  · have hfalse : d.indice_short = false := by
      cases hq : d.indice_short
      · rfl
      · exact absurd hq hshort
    have hfit : list_index d.entries s < 2147483648 :=
      Nat.lt_of_lt_of_le hidx (hw' hfalse)
    refine ⟨int32_bytes (list_index d.entries s), ?_, ?_⟩
    · simp only [hd, Bool.false_eq_true, if_false, hs, if_true, hfalse]
      unfold pack_i32
      rw [if_pos]
      constructor
      · omega
      · exact_mod_cast hfit
    · intro rest
      simp only [hd, Bool.false_eq_true, if_false, hfalse, if_false]
      rw [get_int_int32 _ (by omega) (by exact_mod_cast hfit) rest]
      simp [Int.toNat_natCast, list_index_get hs]

theorem encode_strings_ok (ss : List String)
    (h : ∀ s ∈ ss, ∀ c ∈ s.data, c.toNat < 128) :
    encode_strings ss = .ok ((ss.map inline_str).flatten) := by
  induction ss with
  | nil => simp [encode_strings]
  | cons s ss ih =>
      unfold encode_strings
      rw [encode_ok s (h s (by simp)), ih (fun s' hs' => h s' (by simp [hs'])), wcat_ok]
      simp

theorem read_strings_inline (ss : List String) (rest : List WByte)
    (h : ∀ s ∈ ss, ∀ c ∈ s.data, c.toNat < 128 ∧ c.toNat ≠ 0) :
    read_strings ss.length ((ss.map inline_str).flatten ++ rest) = .ok (ss, rest) := by
  induction ss generalizing rest with
  | nil => simp [read_strings]
  | cons s ss ih =>
      have h1 := get_str_inline s ((ss.map inline_str).flatten ++ rest) (h s (by simp))
      have h2 := ih rest (fun s' hs' => h s' (by simp [hs']))
      show read_strings (ss.length + 1) ((inline_str s ++ (ss.map inline_str).flatten) ++ rest) =
        _
      rw [List.append_assoc]
      unfold read_strings
      rw [h1]
      show (match read_strings ss.length ((ss.map inline_str).flatten ++ rest) with
            | .ok (ss', r') => (Except.ok (s :: ss', r') : Except Err (List String × List WByte))
            | .error e => .error e) = .ok (s :: ss, rest)
      rw [h2]

theorem pack_i32_nat (n : Nat) (hfit : n < 2147483648) :
    pack_i32 (n : Int) = .ok (int32_bytes (n : Int)) := by
  unfold pack_i32
  rw [if_pos (by constructor <;> omega)]

theorem dict_write_int32 (d : StrDict) (hd : d.dummy = false)
    (h : ∀ s ∈ d.entries, ∀ c ∈ s.data, c.toNat < 128 ∧ c.toNat ≠ 0)
    (hfit : d.entries.length < 2147483648) (hfalse : d.length_short = false) :
    d.write_dictionary =
      .ok (int32_bytes d.entries.length ++ (d.entries.map inline_str).flatten) := by
  have hbody : encode_strings d.entries = .ok ((d.entries.map inline_str).flatten) :=
    encode_strings_ok _ (fun s hs c hc => (h s hs c hc).1)
  have hp := pack_i32_nat d.entries.length hfit
  unfold StrDict.write_dictionary
  simp only [hd, Bool.false_eq_true, if_false, hfalse]
  rw [hp, hbody, wcat_ok]

theorem dict_read_int32 (d : StrDict)
    (h : ∀ s ∈ d.entries, ∀ c ∈ s.data, c.toNat < 128 ∧ c.toNat ≠ 0)
    (hfit : d.entries.length < 2147483648) (hfalse : d.length_short = false)
    (rest : List WByte) :
    read_dict_payload d.length_short
      ((int32_bytes d.entries.length ++ (d.entries.map inline_str).flatten) ++ rest) =
      .ok (d.entries, rest) := by
  unfold read_dict_payload
  simp only [hfalse, Bool.false_eq_true, if_false, List.append_assoc]
  rw [get_int_int32 _ (by omega) (by exact_mod_cast hfit) _]
  simp only [Int.toNat_natCast]
  exact read_strings_inline d.entries rest h

theorem dict_write_u16 (d : StrDict) (hd : d.dummy = false)
    (h : ∀ s ∈ d.entries, ∀ c ∈ s.data, c.toNat < 128 ∧ c.toNat ≠ 0)
    (hfit : d.entries.length < 65536) (hshort : d.length_short = true) :
    d.write_dictionary =
      .ok ([WByte.raw (d.entries.length % 256), .raw (d.entries.length / 256)] ++
        (d.entries.map inline_str).flatten) := by
  have hbody : encode_strings d.entries = .ok ((d.entries.map inline_str).flatten) :=
    encode_strings_ok _ (fun s hs c hc => (h s hs c hc).1)
  unfold StrDict.write_dictionary
  simp only [hd, Bool.false_eq_true, if_false, hshort, if_true]
  rw [(get_short_pack _ hfit []).1, hbody, wcat_ok]

theorem dict_read_u16 (d : StrDict)
    (h : ∀ s ∈ d.entries, ∀ c ∈ s.data, c.toNat < 128 ∧ c.toNat ≠ 0)
    (hfit : d.entries.length < 65536) (hshort : d.length_short = true)
    (rest : List WByte) :
    read_dict_payload d.length_short
      (([WByte.raw (d.entries.length % 256), .raw (d.entries.length / 256)] ++
        (d.entries.map inline_str).flatten) ++ rest) = .ok (d.entries, rest) := by
  unfold read_dict_payload
  simp only [hshort, if_true, List.cons_append, List.nil_append, List.append_assoc]
  rw [(get_short_pack _ hfit _).2]
  exact read_strings_inline d.entries rest h

theorem strdict_dictionary_roundtrip (d : StrDict) (hd : d.dummy = false)
    (h : ∀ s ∈ d.entries, ∀ c ∈ s.data, c.toNat < 128 ∧ c.toNat ≠ 0)
    (hlen : d.length_short = true → d.entries.length < 65536)
    (hlen2 : d.length_short = false → d.entries.length < 2147483648) :
    ∃ bs, d.write_dictionary = .ok bs ∧
      ∀ rest, read_dict_payload d.length_short (bs ++ rest) = .ok (d.entries, rest) := by
  by_cases hshort : d.length_short = true
  · exact ⟨_, dict_write_u16 d hd h (hlen hshort) hshort,
      fun rest => dict_read_u16 d h (hlen hshort) hshort rest⟩
  · have hfalse : d.length_short = false := by
      cases hq : d.length_short
      · rfl
      · exact absurd hq hshort
    exact ⟨_, dict_write_int32 d hd h (hlen2 hfalse) hfalse,
      fun rest => dict_read_int32 d h (hlen2 hfalse) hfalse rest⟩


/-! Deduplication of the built dictionary. -/

theorem dict_insert_nodup {l : List String} (h : l.Nodup) (s : String) :
    (dict_insert l s).Nodup := by
  unfold dict_insert
  split_ifs with hs
  · exact h
  · rw [List.nodup_append]
    refine ⟨h, List.nodup_singleton s, ?_⟩
    intro a ha hmem
    rw [List.mem_singleton] at hmem
    exact hs (hmem ▸ ha)

theorem build_arr_fold_nodup (g : List Elem) (fuel : Nat)
    (ih : ∀ st e, st.2.Nodup → ((build_strings g fuel st e).2).Nodup) :
    ∀ (ts : List Nat) (st : List Nat × List String), st.2.Nodup →
      ((ts.foldl (fun st t =>
          if t ∈ st.1 then st
          else
            match find_elem g t with
            | some te => build_strings g fuel st te
            | none => st) st).2).Nodup := by
  intro ts
  induction ts with
  | nil => intro st h; simpa using h
  | cons t ts ihp =>
      intro st h
      rw [List.foldl_cons]
      apply ihp
      split_ifs with ht
      · exact h
      · cases hf : find_elem g t with
        | some te => exact ih st te h
        | none => exact h

theorem build_fold_nodup (g : List Elem) (fuel : Nat)
    (ih : ∀ st e, st.2.Nodup → ((build_strings g fuel st e).2).Nodup) :
    ∀ (ps : List (String × Value)) (st : List Nat × List String), st.2.Nodup →
      ((ps.foldl (build_step_f g (build_strings g fuel)) st).2).Nodup := by
  intro ps
  induction ps with
  | nil => intro st h; simpa using h
  | cons p ps ihp =>
      intro st h
      rw [List.foldl_cons]
      apply ihp
      rcases p with ⟨k, v⟩
      have h1 : (dict_insert st.2 k).Nodup := dict_insert_nodup h k
      cases v with
      | str s => exact dict_insert_nodup h1 s
      | elem ot =>
          cases ot with
          | none => exact h1
          | some t =>
              unfold build_step_f
              simp only
              split_ifs with ht
              · exact h1
              · cases hf : find_elem g t with
                | some te => exact ih _ te h1
                | none => exact h1
      | elemArray ts => exact build_arr_fold_nodup g fuel ih ts _ h1
      | int n => exact h1
      | float q => exact h1
      | bool b => exact h1
      | binary bs => exact h1
      | time q => exact h1
      | color qs => exact h1
      | vector2 qs => exact h1
      | vector3 qs => exact h1
      | vector4 qs => exact h1
      | angle qs => exact h1
      | quaternion qs => exact h1
      | matrix rows => exact h1
      | intArray ns => exact h1
      | floatArray qs => exact h1
      | boolArray bs => exact h1
      | strArray ss => exact h1
      | binaryArray ls => exact h1
      | timeArray qs => exact h1
      | colorArray ls => exact h1
      | vector2Array ls => exact h1
      | vector3Array ls => exact h1
      | vector4Array ls => exact h1
      | angleArray ls => exact h1
      | quaternionArray ls => exact h1

theorem build_strings_nodup (g : List Elem) :
    ∀ fuel (st : List Nat × List String) (e : Elem), st.2.Nodup →
      ((build_strings g fuel st e).2).Nodup := by
  intro fuel
  induction fuel with
  | zero => intro st e h; simpa [build_strings] using h
  | succ fuel ih =>
      intro st e h
      unfold build_strings
      exact build_fold_nodup g fuel (fun st' e' h' => ih st' e' h') e.attrs _
        (dict_insert_nodup (dict_insert_nodup h e.name) e.type)

/-! C2.  The dictionary is written once and indices resolve, but for
binary versions 2-3 only the element type tags and attribute keys go
through the dictionary: `_write_element_index` suppresses the dictionary
for element names (`suppress_dict = encoding_ver < 4`) and
`_write_element_props` does the same for string attribute values. -/

/-- C2 counterexample: at binary version 2 the element name "root" is
written as its inline NUL-terminated bytes, not as the dictionary index
the claim prescribes (the two byte sequences differ). -/
theorem dmx_c2_counterexample :
    write_str_dispatch (some c2_dict) (decide (2 < 4)) "root" = .ok (inline_str "root") ∧
    c2_dict.write_string "root" = .ok [.raw 1, .raw 0] ∧
    (Except.ok (inline_str "root") : Except Err (List WByte)) ≠ .ok [.raw 1, .raw 0] := by
  decide

/-- C2 amended: the dictionary entries collected by the build pass are
duplicate-free; the non-dummy table is written once as its count followed
by the NUL-terminated entries and reads back identically; a written index
resolves back to the identical string; but only versions 4-5 route
element names and top-level string values through the dictionary —
versions 2-3 write them inline (`suppress_dict = encoding_ver < 4`),
the dictionary being used there only for the unsuppressed writes (element
type tags and attribute keys). -/
theorem dmx_c2_amended :
    (∀ (g : List Elem) (root : Elem), (build_dict_entries g root).Nodup) ∧
    (∀ d : StrDict, d.dummy = false →
      (∀ s ∈ d.entries, ∀ c ∈ s.data, c.toNat < 128 ∧ c.toNat ≠ 0) →
      (d.length_short = true → d.entries.length < 65536) →
      (d.length_short = false → d.entries.length < 2147483648) →
      ∃ bs, d.write_dictionary = .ok bs ∧
        ∀ rest, read_dict_payload d.length_short (bs ++ rest) = .ok (d.entries, rest)) ∧
    (∀ d : StrDict, d.dummy = false → ∀ s ∈ d.entries,
      (d.indice_short = true → d.entries.length ≤ 65536) →
      (d.indice_short = false → d.entries.length ≤ 2147483648) →
      ∃ bs, d.write_string s = .ok bs ∧
        ∀ rest, d.read_string (bs ++ rest) = .ok (s, rest)) ∧
    (∀ (ver : Nat) (d : StrDict) (s : String), ver = 2 ∨ ver = 3 →
      write_str_dispatch (some d) (decide (ver < 4)) s = encode_binary_string s) ∧
    (∀ (ver : Nat) (d : StrDict) (s : String), ver = 4 ∨ ver = 5 →
      write_str_dispatch (some d) (decide (ver < 4)) s = d.write_string s) ∧
    (∀ (d : StrDict) (s : String), write_str_dispatch (some d) false s = d.write_string s) ∧
    (∀ (ver : Nat) (es : List String), ver = 2 ∨ ver = 3 ∨ ver = 4 ∨ ver = 5 →
      (make_string_dict "binary" ver es).dummy = false ∧
      (make_string_dict "binary" ver es).entries = es) := by
  refine ⟨?_, ?_, ?_, ?_, ?_, ?_, ?_⟩
  · intro g root
    exact build_strings_nodup g g.length ([], []) root List.nodup_nil
  · intro d hd h h1 h2
    exact strdict_dictionary_roundtrip d hd h h1 h2
  · intro d hd s hs h1 h2
    exact strdict_resolve d hd hs h1 h2
  · intro ver d s hver
    rcases hver with rfl | rfl <;> rfl
  · intro ver d s hver
    rcases hver with rfl | rfl <;> rfl
  · intro d s
    rfl
  · intro ver es hver
    rcases hver with rfl | rfl | rfl | rfl <;> exact ⟨rfl, rfl⟩

/-- C2 witness: the dictionary round-trip and index resolution applied at
the concrete version-2 dictionary. -/
theorem dmx_c2_witness :
    (∃ bs, c2_dict.write_dictionary = .ok bs ∧
      ∀ rest, read_dict_payload c2_dict.length_short (bs ++ rest) =
        .ok (c2_dict.entries, rest)) ∧
    (∃ bs, c2_dict.write_string "root" = .ok bs ∧
      ∀ rest, c2_dict.read_string (bs ++ rest) = .ok ("root", rest)) ∧
    write_str_dispatch (some c2_dict) (decide (2 < 4)) "DmElement" =
      encode_binary_string "DmElement" :=
  ⟨dmx_c2_amended.2.1 c2_dict (by decide) (by decide) (by decide) (by decide),
   dmx_c2_amended.2.2.1 c2_dict (by decide) "root" (by decide) (by decide) (by decide),
   dmx_c2_amended.2.2.2.1 2 c2_dict "DmElement" (Or.inl rfl)⟩

/-! C3.  Strings inside arrays are written inline and read back inline
for every binary version: the writer passes `suppress_dict=True` for
array items, and the reader's `get_value(str, from_array=True)` always
takes the `get_str` branch. -/

theorem with_len_ok {n : Nat} {body : Except Err (List WByte)} {bs : List WByte}
    (hn : pack_i32 (n : Int) = .ok (int32_bytes (n : Int))) (hb : body = .ok bs) :
    with_len n body = .ok (int32_bytes (n : Int) ++ bs) := by
  unfold with_len
  rw [hn, hb, wcat_ok]

theorem concat_encode (ss : List String)
    (h : ∀ s ∈ ss, ∀ c ∈ s.data, c.toNat < 128) :
    concat_write encode_binary_string ss = .ok ((ss.map inline_str).flatten) := by
  induction ss with
  | nil => simp [concat_write]
  | cons s ss ih =>
      unfold concat_write
      rw [encode_ok s (h s (by simp)), ih (fun s' hs' => h s' (by simp [hs'])), wcat_ok]
      simp

theorem read_str_items_inline (ver : Nat) (d : StrDict) (ss : List String)
    (rest : List WByte) (h : ∀ s ∈ ss, ∀ c ∈ s.data, c.toNat < 128 ∧ c.toNat ≠ 0) :
    read_str_items ver d ss.length ((ss.map inline_str).flatten ++ rest) = .ok (ss, rest) := by
  induction ss generalizing rest with
  | nil => simp [read_str_items]
  | cons s ss ih =>
      have h1 : get_value_str ver d true (inline_str s ++ ((ss.map inline_str).flatten ++ rest)) =
          .ok (s, (ss.map inline_str).flatten ++ rest) := by
        unfold get_value_str
        rw [if_pos (Or.inr rfl)]
        exact get_str_inline s _ (h s (by simp))
      have h2 := ih rest (fun s' hs' => h s' (by simp [hs']))
      show read_str_items ver d (ss.length + 1)
        ((inline_str s ++ (ss.map inline_str).flatten) ++ rest) = _
      rw [List.append_assoc]
      unfold read_str_items
      rw [h1]
      show (match read_str_items ver d ss.length ((ss.map inline_str).flatten ++ rest) with
            | .ok (ss', r') => (Except.ok (s :: ss', r') : Except Err (List String × List WByte))
            | .error e => .error e) = .ok (s :: ss, rest)
      rw [h2]

/-- C3: for every binary version and any (even absent) dictionary, a
string array attribute is written as its length followed by each entry
inline (NUL-terminated, dictionary-independent), and the reader's
`from_array=True` string branch reads the identical strings back inline,
never via the dictionary. -/
theorem dmx_c3_array_strings_inline (encoding : String) (ver : Nat) (g : List Elem)
    (ctxd : Option StrDict) (chain : List Elem) (suppress : Bool) (d : StrDict)
    (ss : List String)
    (h : ∀ s ∈ ss, ∀ c ∈ s.data, c.toNat < 128 ∧ c.toNat ≠ 0)
    (hlen : ss.length < 2147483648) :
    write_value g ⟨encoding, ver, ctxd⟩ chain suppress (.strArray ss) =
      .ok (int32_bytes ss.length ++ (ss.map inline_str).flatten) ∧
    ∀ rest, read_str_array ver d
      ((int32_bytes ss.length ++ (ss.map inline_str).flatten) ++ rest) = .ok (ss, rest) := by
  constructor
  · simp only [write_value]
    exact with_len_ok (pack_i32_nat ss.length hlen)
      (concat_encode ss (fun s hs c hc => (h s hs c hc).1))
  · intro rest
    unfold read_str_array
    rw [List.append_assoc, get_int_int32 _ (by omega) (by exact_mod_cast hlen) _]
    simp only [Int.toNat_natCast]
    exact read_str_items_inline ver d ss rest h

/-- C3 witness: the inline array round-trip at a concrete string array,
version 4 (where top-level strings do use the dictionary) and the
version-2 dictionary fixture. -/
theorem dmx_c3_witness :
    write_value [] ⟨"binary", 4, some c2_dict⟩ [] true (.strArray ["ab", "c"]) =
      .ok (int32_bytes 2 ++ ((["ab", "c"].map inline_str).flatten)) ∧
    read_str_array 4 c2_dict
      ((int32_bytes 2 ++ ((["ab", "c"].map inline_str).flatten)) ++ []) =
      .ok (["ab", "c"], []) := by
  have h := dmx_c3_array_strings_inline "binary" 4 [] (some c2_dict) [] true c2_dict
    ["ab", "c"] (by decide) (by decide)
  exact ⟨h.1, h.2 []⟩

/-! C5.  Correctness of the multiplicity-counting pass: after
`_count_child_elems(root)`, the visited list is a duplicate-free
enumeration of exactly the elements reachable from the root, and each
`_users` counter equals the number of attribute slots over the visited
elements referencing that element. -/

theorem count_visit_zero (g : List Elem) (st : CountSt) (e : Elem) :
    count_visit g 0 st e = st := rfl

theorem count_visit_succ (g : List Elem) (fuel : Nat) (st : CountSt) (e : Elem) :
    count_visit g (fuel + 1) st e =
      (elemTargets e).foldl (count_step_f g (count_visit g fuel)) (st.1 ++ [e.id], st.2) := rfl

theorem bump_apply (us : Nat → Nat) (t t0 : Nat) :
    bump us t t0 = us t0 + (if t0 = t then 1 else 0) := by
  unfold bump
  split_ifs with h
  · rw [h]
  · rfl

theorem count_fold_acc (g : List Elem) (fuel : Nat)
    (ih : ∀ e ∈ g, ∀ st : CountSt, ∃ L : List Elem, (∀ x ∈ L, x ∈ g) ∧
      (count_visit g fuel st e).1 = st.1 ++ L.map (fun x => x.id) ∧
      ∀ t, (count_visit g fuel st e).2 t = st.2 t + slot_sum L t) :
    ∀ (ts : List Nat) (st : CountSt), ∃ L : List Elem, (∀ x ∈ L, x ∈ g) ∧
      (ts.foldl (count_step_f g (count_visit g fuel)) st).1 = st.1 ++ L.map (fun x => x.id) ∧
      ∀ t, (ts.foldl (count_step_f g (count_visit g fuel)) st).2 t =
        st.2 t + slot_sum L t + ts.count t := by
  intro ts
  induction ts with
  | nil =>
      intro st
      exact ⟨[], by simp, by simp, fun t => by simp [slot_sum]⟩
  | cons t ts ihts =>
      intro st
      rw [List.foldl_cons]
      by_cases hmem : t ∈ st.1
      · have hstep : count_step_f g (count_visit g fuel) st t = (st.1, bump st.2 t) := by
          simp only [count_step_f, if_pos hmem]
        obtain ⟨L, hLg, hvis, hus⟩ := ihts (count_step_f g (count_visit g fuel) st t)
        refine ⟨L, hLg, by rw [hvis, hstep], ?_⟩
        intro t0
        rw [hus t0, hstep]
        simp only [bump_apply, List.count_cons]
        by_cases ht0 : t0 = t
        · simp only [ht0, if_pos rfl, beq_self_eq_true, if_true]
          omega
        · have hne : ¬(t == t0) = true := by
            simp only [beq_iff_eq]
            exact fun hcon => ht0 hcon.symm
          simp only [if_neg ht0, if_neg hne]
          omega
      · cases hfind : find_elem g t with
        | none =>
            have hstep : count_step_f g (count_visit g fuel) st t = (st.1, bump st.2 t) := by
              simp only [count_step_f, if_neg hmem, hfind]
            obtain ⟨L, hLg, hvis, hus⟩ := ihts (count_step_f g (count_visit g fuel) st t)
            refine ⟨L, hLg, by rw [hvis, hstep], ?_⟩
            intro t0
            rw [hus t0, hstep]
            simp only [bump_apply, List.count_cons]
            by_cases ht0 : t0 = t
            · simp only [ht0, if_pos rfl, beq_self_eq_true, if_true]
              omega
            · have hne : ¬(t == t0) = true := by
                simp only [beq_iff_eq]
                exact fun hcon => ht0 hcon.symm
              simp only [if_neg ht0, if_neg hne]
              omega
        | some te =>
            obtain ⟨L1, hL1g, hvis1, hus1⟩ := ih te (find_elem_mem hfind) st
            have hstep : count_step_f g (count_visit g fuel) st t =
                ((count_visit g fuel st te).1, bump (count_visit g fuel st te).2 t) := by
              simp only [count_step_f, if_neg hmem, hfind]
            obtain ⟨L2, hL2g, hvis2, hus2⟩ := ihts (count_step_f g (count_visit g fuel) st t)
            refine ⟨L1 ++ L2, ?_, ?_, ?_⟩
            · intro x hx
              rcases List.mem_append.mp hx with hx' | hx'
              · exact hL1g x hx'
              · exact hL2g x hx'
            · rw [hvis2, hstep]
              simp only
              rw [hvis1, List.map_append, List.append_assoc]
            · intro t0
              rw [hus2 t0, hstep]
              simp only [bump_apply]
              rw [hus1 t0, slot_sum_append, List.count_cons]
              by_cases ht0 : t0 = t
              · simp only [ht0, if_pos rfl, beq_self_eq_true, if_true]
                omega
              · have hne : ¬(t == t0) = true := by
                  simp only [beq_iff_eq]
                  exact fun hcon => ht0 hcon.symm
                simp only [if_neg ht0, if_neg hne]
                omega

theorem count_visit_acc (g : List Elem) :
    ∀ fuel, ∀ e ∈ g, ∀ st : CountSt, ∃ L : List Elem, (∀ x ∈ L, x ∈ g) ∧
      (count_visit g fuel st e).1 = st.1 ++ L.map (fun x => x.id) ∧
      ∀ t, (count_visit g fuel st e).2 t = st.2 t + slot_sum L t := by
  intro fuel
  induction fuel with
  | zero =>
      intro e _ st
      exact ⟨[], by simp, by simp [count_visit_zero], fun t => by
        simp [count_visit_zero, slot_sum]⟩
  | succ fuel ih =>
      intro e he st
      rw [count_visit_succ]
      obtain ⟨L, hLg, hvis, hus⟩ :=
        count_fold_acc g fuel ih (elemTargets e) (st.1 ++ [e.id], st.2)
      refine ⟨e :: L, ?_, ?_, ?_⟩
      · intro x hx
        rcases List.mem_cons.mp hx with rfl | hx'
        · exact he
        · exact hLg x hx'
      · rw [hvis]
        simp [List.append_assoc]
      · intro t
        rw [hus t, slot_sum_cons]
        simp only
        omega

theorem count_fold_reach (g : List Elem) (r : Nat) (fuel : Nat)
    (ih : ∀ e ∈ g, Reach g r e.id → ∀ st : CountSt, (∀ i ∈ st.1, Reach g r i) →
      ∀ i ∈ (count_visit g fuel st e).1, Reach g r i) :
    ∀ (ts : List Nat) (st : CountSt), (∀ t ∈ ts, Reach g r t) →
      (∀ i ∈ st.1, Reach g r i) →
      ∀ i ∈ (ts.foldl (count_step_f g (count_visit g fuel)) st).1, Reach g r i := by
  intro ts
  induction ts with
  | nil =>
      intro st _ hst i hi
      exact hst i hi
  | cons t ts ihts =>
      intro st hts hst
      rw [List.foldl_cons]
      apply ihts _ (fun t' ht' => hts t' (by simp [ht']))
      by_cases hmem : t ∈ st.1
      · have hstep : (count_step_f g (count_visit g fuel) st t).1 = st.1 := by
          simp only [count_step_f, if_pos hmem]
        intro i hi
        rw [hstep] at hi
        exact hst i hi
      · cases hfind : find_elem g t with
        | none =>
            have hstep : (count_step_f g (count_visit g fuel) st t).1 = st.1 := by
              simp only [count_step_f, if_neg hmem, hfind]
            intro i hi
            rw [hstep] at hi
            exact hst i hi
        | some te =>
            have hstep : (count_step_f g (count_visit g fuel) st t).1 =
                (count_visit g fuel st te).1 := by
              simp only [count_step_f, if_neg hmem, hfind]
            intro i hi
            rw [hstep] at hi
            refine ih te (find_elem_mem hfind) ?_ st hst i hi
            rw [find_elem_id hfind]
            exact hts t (by simp)

theorem count_visit_reach (g : List Elem) (r : Nat) :
    ∀ fuel, ∀ e ∈ g, Reach g r e.id → ∀ st : CountSt, (∀ i ∈ st.1, Reach g r i) →
      ∀ i ∈ (count_visit g fuel st e).1, Reach g r i := by
  intro fuel
  induction fuel with
  | zero =>
      intro e _ _ st hst i hi
      rw [count_visit_zero] at hi
      exact hst i hi
  | succ fuel ih =>
      intro e he hre st hst
      rw [count_visit_succ]
      apply count_fold_reach g r fuel ih (elemTargets e) (st.1 ++ [e.id], st.2)
      · intro t ht
        exact Reach.step hre he rfl ht
      · intro i hi
        simp only [List.mem_append, List.mem_singleton] at hi
        rcases hi with hi' | hi'
        · exact hst i hi'
        · rw [hi']
          exact hre

theorem count_fold_nodup (g : List Elem) (fuel : Nat)
    (ih : ∀ (st : CountSt) (e : Elem), e.id ∉ st.1 → st.1.Nodup →
      ((count_visit g fuel st e).1).Nodup) :
    ∀ (ts : List Nat) (st : CountSt), st.1.Nodup →
      ((ts.foldl (count_step_f g (count_visit g fuel)) st).1).Nodup := by
  intro ts
  induction ts with
  | nil =>
      intro st h
      exact h
  | cons t ts ihts =>
      intro st h
      rw [List.foldl_cons]
      apply ihts
      by_cases hmem : t ∈ st.1
      · simpa only [count_step_f, if_pos hmem] using h
      · cases hfind : find_elem g t with
        | none => simpa only [count_step_f, if_neg hmem, hfind] using h
        | some te =>
            have hstep : (count_step_f g (count_visit g fuel) st t).1 =
                (count_visit g fuel st te).1 := by
              simp only [count_step_f, if_neg hmem, hfind]
            rw [hstep]
            refine ih st te ?_ h
            rw [find_elem_id hfind]
            exact hmem

theorem count_visit_nodup (g : List Elem) :
    ∀ fuel (st : CountSt) (e : Elem), e.id ∉ st.1 → st.1.Nodup →
      ((count_visit g fuel st e).1).Nodup := by
  intro fuel
  induction fuel with
  | zero =>
      intro st e _ h
      exact h
  | succ fuel ih =>
      intro st e hid h
      rw [count_visit_succ]
      apply count_fold_nodup g fuel ih
      simp only
      rw [List.nodup_append]
      refine ⟨h, List.nodup_singleton _, ?_⟩
      intro a ha hmem
      rw [List.mem_singleton] at hmem
      exact hid (hmem ▸ ha)

theorem unvisited_mono (g : List Elem) {v1 v2 : List Nat} (h : ∀ i ∈ v1, i ∈ v2) :
    unvisited_count g v2 ≤ unvisited_count g v1 := by
  unfold unvisited_count
  apply List.countP_mono_left
  intro i _ hi
  simp only [decide_eq_true_eq] at hi ⊢
  exact fun hcon => hi (h i hcon)

theorem countP_congr_members {l : List Nat} {p q : Nat → Bool}
    (h : ∀ a ∈ l, p a = q a) : l.countP p = l.countP q := by
  induction l with
  | nil => rfl
  | cons x xs ih =>
      rw [List.countP_cons, List.countP_cons, h x (by simp),
        ih (fun a ha => h a (by simp [ha]))]

theorem unvisited_decrement (g : List Elem) (hn : idsNodup g) {vis : List Nat}
    {a : Nat} (hag : a ∈ g.map (fun e => e.id)) (hav : a ∉ vis) :
    unvisited_count g (vis ++ [a]) + 1 = unvisited_count g vis := by
  unfold unvisited_count
  unfold idsNodup at hn
  revert hn hag
  generalize g.map (fun e => e.id) = l
  intro hn hag
  induction l with
  | nil => cases hag
  | cons x xs ih =>
      rw [List.countP_cons, List.countP_cons]
      rcases List.mem_cons.mp hag with rfl | hx
      · have h1 : decide (a ∉ vis ++ [a]) = false := by simp
        have h2 : decide (a ∉ vis) = true := by simpa using hav
        rw [h1, h2]
        have hcong : xs.countP (fun i => decide (i ∉ vis ++ [a])) =
            xs.countP (fun i => decide (i ∉ vis)) := by
          apply countP_congr_members
          intro i hi
          have hia : i ≠ a := fun hcon => (List.nodup_cons.mp hn).1 (hcon ▸ hi)
          simp [List.mem_append, hia]
        rw [hcong]
        simp
      · have hxa : x ≠ a := fun hcon => (List.nodup_cons.mp hn).1 (hcon ▸ hx)
        have hx1 : decide (x ∉ vis ++ [a]) = decide (x ∉ vis) := by
          simp [List.mem_append, hxa]
        rw [hx1]
        have := ih (List.nodup_cons.mp hn).2 hx
        omega

theorem count_fold_closed (g : List Elem) (fuel : Nat)
    (ihv : ∀ e ∈ g, ∀ st : CountSt, e.id ∉ st.1 → unvisited_count g st.1 ≤ fuel →
      e.id ∈ (count_visit g fuel st e).1 ∧
      (∀ x ∈ g, x.id ∈ (count_visit g fuel st e).1 → x.id ∉ st.1 →
        ∀ t ∈ elemTargets x, (find_elem g t).isSome → t ∈ (count_visit g fuel st e).1))
    (hacc : ∀ e ∈ g, ∀ st : CountSt, ∃ L : List Elem, (∀ x ∈ L, x ∈ g) ∧
      (count_visit g fuel st e).1 = st.1 ++ L.map (fun x => x.id) ∧
      ∀ t, (count_visit g fuel st e).2 t = st.2 t + slot_sum L t) :
    ∀ (ts : List Nat) (st : CountSt), unvisited_count g st.1 ≤ fuel →
      (∀ i ∈ st.1, i ∈ (ts.foldl (count_step_f g (count_visit g fuel)) st).1) ∧
      (∀ t ∈ ts, (find_elem g t).isSome →
        t ∈ (ts.foldl (count_step_f g (count_visit g fuel)) st).1) ∧
      (∀ x ∈ g, x.id ∈ (ts.foldl (count_step_f g (count_visit g fuel)) st).1 →
        x.id ∉ st.1 → ∀ t ∈ elemTargets x, (find_elem g t).isSome →
        t ∈ (ts.foldl (count_step_f g (count_visit g fuel)) st).1) := by
  intro ts
  induction ts with
  | nil =>
      intro st _
      refine ⟨fun i hi => hi, fun t ht => absurd ht (by simp), ?_⟩
      intro x _ hxin hxnot
      exact absurd hxin hxnot
  | cons t ts ihts =>
      intro st hadq
      rw [List.foldl_cons]
      by_cases hmem : t ∈ st.1
      · have hstep : count_step_f g (count_visit g fuel) st t = (st.1, bump st.2 t) := by
          simp only [count_step_f, if_pos hmem]
        rw [hstep]
        obtain ⟨ha, hb, hcc⟩ := ihts (st.1, bump st.2 t) hadq
        refine ⟨ha, ?_, hcc⟩
        intro t' ht' hsome
        rcases List.mem_cons.mp ht' with rfl | ht''
        · exact ha t' hmem
        · exact hb t' ht'' hsome
      · cases hfind : find_elem g t with
        | none =>
            have hstep : count_step_f g (count_visit g fuel) st t = (st.1, bump st.2 t) := by
              simp only [count_step_f, if_neg hmem, hfind]
            rw [hstep]
            obtain ⟨ha, hb, hcc⟩ := ihts (st.1, bump st.2 t) hadq
            refine ⟨ha, ?_, hcc⟩
            intro t' ht' hsome
            rcases List.mem_cons.mp ht' with rfl | ht''
            · rw [hfind] at hsome
              cases hsome
            · exact hb t' ht'' hsome
        | some te =>
            have hteg : te ∈ g := find_elem_mem hfind
            have hteid : te.id = t := find_elem_id hfind
            have htid : te.id ∉ st.1 := by
              rw [hteid]
              exact hmem
            obtain ⟨hvmem, hvclos⟩ := ihv te hteg st htid hadq
            obtain ⟨L, _, hsh, _⟩ := hacc te hteg st
            have hsub : ∀ i ∈ st.1, i ∈ (count_visit g fuel st te).1 := by
              intro i hi
              rw [hsh]
              exact List.mem_append.mpr (Or.inl hi)
            have hstep : count_step_f g (count_visit g fuel) st t =
                ((count_visit g fuel st te).1, bump (count_visit g fuel st te).2 t) := by
              simp only [count_step_f, if_neg hmem, hfind]
            rw [hstep]
            obtain ⟨ha, hb, hcc⟩ :=
              ihts ((count_visit g fuel st te).1, bump (count_visit g fuel st te).2 t)
                (Nat.le_trans (unvisited_mono g hsub) hadq)
            refine ⟨?_, ?_, ?_⟩
            · intro i hi
              exact ha i (hsub i hi)
            · intro t' ht' hsome
              rcases List.mem_cons.mp ht' with rfl | ht''
              · exact ha t' (hteid ▸ hvmem)
              · exact hb t' ht'' hsome
            · intro x hx hxin hxnot t' ht' hsome
              by_cases hxcv : x.id ∈ (count_visit g fuel st te).1
              · exact ha t' (hvclos x hx hxcv hxnot t' ht' hsome)
              · exact hcc x hx hxin hxcv t' ht' hsome

theorem count_visit_closed (g : List Elem) (hn : idsNodup g) :
    ∀ fuel, ∀ e ∈ g, ∀ st : CountSt, e.id ∉ st.1 → unvisited_count g st.1 ≤ fuel →
      e.id ∈ (count_visit g fuel st e).1 ∧
      (∀ x ∈ g, x.id ∈ (count_visit g fuel st e).1 → x.id ∉ st.1 →
        ∀ t ∈ elemTargets x, (find_elem g t).isSome → t ∈ (count_visit g fuel st e).1) := by
  intro fuel
  induction fuel with
  | zero =>
      intro e he st hid hadq
      exfalso
      have hpos : 0 < unvisited_count g st.1 := by
        unfold unvisited_count
        rw [List.countP_pos_iff]
        exact ⟨e.id, List.mem_map_of_mem _ he, by simpa using hid⟩
      omega
  | succ fuel ih =>
      intro e he st hid hadq
      rw [count_visit_succ]
      have hdec := unvisited_decrement g hn (List.mem_map_of_mem (fun x => x.id) he) hid
      have hadq' : unvisited_count g ((st.1 ++ [e.id], st.2) : CountSt).1 ≤ fuel := by
        simp only
        omega
      obtain ⟨ha, hb, hcc⟩ := count_fold_closed g fuel ih (count_visit_acc g fuel)
        (elemTargets e) (st.1 ++ [e.id], st.2) hadq'
      constructor
      · exact ha e.id (by simp)
      · intro x hx hxin hxnot t ht hsome
        by_cases hxe : x.id = e.id
        · have hxeq : x = e := ids_inj hn hx he hxe
          subst hxeq
          exact hb t ht hsome
        · have hxnot' : x.id ∉ ((st.1 ++ [e.id], st.2) : CountSt).1 := by
            simp only [List.mem_append, List.mem_singleton]
            rintro (h1 | h1)
            · exact hxnot h1
            · exact hxe h1
          exact hcc x hx hxin hxnot' t ht hsome

theorem find_elem_isSome {g : List Elem} {t : Nat} (h : ∃ y ∈ g, y.id = t) :
    (find_elem g t).isSome := by
  obtain ⟨y, hy, hyid⟩ := h
  unfold find_elem
  rw [List.find?_isSome]
  exact ⟨y, hy, by simp [hyid]⟩

theorem visited_sub_reach (g : List Elem) {root : Elem} (hr : root ∈ g) :
    ∀ i ∈ (count_users g root).1, Reach g root.id i := by
  unfold count_users
  apply count_visit_reach g root.id g.length root hr Reach.refl
  intro i hi
  cases hi

theorem reach_sub_visited (g : List Elem) (hn : idsNodup g) (hc : closedGraph g)
    {root : Elem} (hr : root ∈ g) :
    ∀ i, Reach g root.id i → i ∈ (count_users g root).1 := by
  have hadq : unvisited_count g ([] : List Nat) ≤ g.length := by
    unfold unvisited_count
    calc (g.map (fun e => e.id)).countP _ ≤ (g.map (fun e => e.id)).length :=
          List.countP_le_length _
    _ = g.length := by simp
  obtain ⟨hroot, hclos⟩ :=
    count_visit_closed g hn g.length root hr ([], fun _ => 0) (by simp) hadq
  intro i hreach
  induction hreach with
  | refl => exact hroot
  | step hre hmem hid htgt ih =>
      rename_i b c e'
      refine hclos e' hmem ?_ (by simp) c htgt ?_
      · rw [hid]
        exact ih
      · exact find_elem_isSome (hc e' hmem c htgt)

theorem count_users_props (g : List Elem) (root : Elem) (hn : idsNodup g)
    (hc : closedGraph g) (hr : root ∈ g) :
    ((count_users g root).1).Nodup ∧
    (∀ i, i ∈ (count_users g root).1 ↔ Reach g root.id i) ∧
    (∀ t, (count_users g root).2 t =
      (((count_users g root).1).map (fun i => slot_count g i t)).sum) := by
  refine ⟨?_, ?_, ?_⟩
  · unfold count_users
    exact count_visit_nodup g g.length ([], fun _ => 0) root (by simp) List.nodup_nil
  · intro i
    exact ⟨fun h => visited_sub_reach g hr i h, fun h => reach_sub_visited g hn hc hr i h⟩
  · intro t
    obtain ⟨L, hLg, hvis, hus⟩ := count_visit_acc g g.length root hr ([], fun _ => 0)
    unfold count_users
    rw [hus t, hvis]
    simp only [List.nil_append, Nat.zero_add, List.map_map]
    unfold slot_sum
    congr 1
    apply List.map_congr_left
    intro x hx
    simp only [Function.comp]
    unfold slot_count
    rw [find_elem_self hn (hLg x hx)]

/-- C5: after the counting pass, the visited `out_elems` list is
duplicate-free and contains exactly the ids reachable from the root, and
every recomputed `_users` counter equals the number of attribute slots —
each element-array entry counting as a separate slot — across the visited
(reachable) elements whose value is that element. -/
theorem dmx_c5_multiplicity (g : List Elem) (root : Elem) (hn : idsNodup g)
    (hc : closedGraph g) (hr : root ∈ g) :
    ((count_users g root).1).Nodup ∧
    (∀ i, i ∈ (count_users g root).1 ↔ Reach g root.id i) ∧
    (∀ t, (count_users g root).2 t =
      (((count_users g root).1).map (fun i => slot_count g i t)).sum) :=
  count_users_props g root hn hc hr

/-- C5 witness: the multiplicity theorem applied to the concrete
two-element graph, together with the evaluated counter of the child. -/
theorem dmx_c5_witness :
    ((count_users c5_graph c5_root).1).Nodup ∧
    (count_users c5_graph c5_root).1 = [0, 1] ∧
    (count_users c5_graph c5_root).2 1 = 1 ∧
    (∀ t, (count_users c5_graph c5_root).2 t =
      (((count_users c5_graph c5_root).1).map (fun i => slot_count c5_graph i t)).sum) := by
  have h := dmx_c5_multiplicity c5_graph c5_root (by decide) (by decide) (by decide)
  exact ⟨h.1, by decide, by decide, h.2.2⟩

/-! C4.  KeyValues2 inline-vs-reference rendering and the order of the
trailing full definitions. -/

/-- C4 counterexample: on `c4_graph` the trailing definitions follow the
writer's depth-first `out_elems` order `[13, 12]`, not the breadth-first
discovery order, which would list `[12, 13]`. -/
theorem dmx_c4_counterexample :
    kv2_trailing c4_graph c4_root = [13, 12] ∧
    ((spec_bfs_discovery c4_graph c4_root).filter
      (fun i => 1 < (count_users c4_graph c4_root).2 i)) = [12, 13] ∧
    kv2_trailing c4_graph c4_root ≠
      ((spec_bfs_discovery c4_graph c4_root).filter
        (fun i => 1 < (count_users c4_graph c4_root).2 i)) := by
  exact ⟨by decide, by decide, by decide⟩

/-- C4 (amended): a scalar Element attribute is inlined as a nested body
iff the target's `_users` counter is below 2, and otherwise rendered as a
quoted `"element" "<uuid>"` reference; an element-array entry is inlined
iff its counter equals 1; the trailing full definitions are the
duplicate-free list of ids reachable from the root with counter above 1,
listed as a sublist of the writer's depth-first `out_elems` discovery
order (not breadth-first). -/
theorem dmx_c4_amended (g : List Elem) (root : Elem) (us : Nat → Nat)
    (rec : Nat → Elem → String) (ind : Nat) (name : String) (t : Nat) (te : Elem)
    (hfind : find_elem g t = some te)
    (hn : idsNodup g) (hc : closedGraph g) (hr : root ∈ g) :
    (us t < 2 →
      kv2_attr_f g us rec ind name (.elem (some t)) =
        kv2_indent_str ind ++ kv2_quote name ++ " " ++ rec ind te ++ "\n") ∧
    (2 ≤ us t →
      kv2_attr_f g us rec ind name (.elem (some t)) =
        attr_line ind name "element" (uuid_str t)) ∧
    (us t = 1 →
      kv2_elem_arr_f g us rec ind [t] =
        "\n" ++ kv2_indent_str ind ++ "[\n" ++
        (kv2_indent_str (ind + 1) ++ rec (ind + 1) te) ++
        "\n" ++ kv2_indent_str ind ++ "]") ∧
    (us t ≠ 1 →
      kv2_elem_arr_f g us rec ind [t] =
        "\n" ++ kv2_indent_str ind ++ "[\n" ++
        (kv2_indent_str (ind + 1) ++ kv2_quote "element" ++ " " ++ kv2_quote (uuid_str t)) ++
        "\n" ++ kv2_indent_str ind ++ "]") ∧
    (kv2_trailing g root).Nodup ∧
    (∀ i, i ∈ kv2_trailing g root ↔
      Reach g root.id i ∧ 1 < (count_users g root).2 i) ∧
    (kv2_trailing g root).Sublist (count_users g root).1 := by
  obtain ⟨hnd, hiff, _⟩ := count_users_props g root hn hc hr
  refine ⟨?_, ?_, ?_, ?_, hnd.filter _, ?_, List.filter_sublist _⟩
  · intro h
    simp only [kv2_attr_f, hfind]
    rw [if_pos h]
  · intro h
    simp only [kv2_attr_f, hfind]
    rw [if_neg (Nat.not_lt.mpr h)]
  · intro h
    have hb : (us t == 1) = true := by simp [h]
    simp only [kv2_elem_arr_f, hfind, hb, if_true, List.isEmpty_cons, List.map_cons,
      List.map_nil]
    rfl
  · intro h
    have hb : (us t == 1) = false := by simp [h]
    simp only [kv2_elem_arr_f, hfind, hb, if_false, List.isEmpty_cons, List.map_cons,
      List.map_nil]
    rfl
  · intro i
    unfold kv2_trailing
    rw [List.mem_filter]
    constructor
    · rintro ⟨h1, h2⟩
      exact ⟨(hiff i).mp h1, by simpa using h2⟩
    · rintro ⟨h1, h2⟩
      exact ⟨(hiff i).mpr h1, by simpa using h2⟩

/-- C4 witness: the amended theorem instantiated on the concrete graph,
at the root's doubly-referenced attribute `b` (target id 12), whose
counter is 2, so the attribute renders as a reference line. -/
theorem dmx_c4_witness :
    2 ≤ (count_users c4_graph c4_root).2 12 ∧
    kv2_attr_f c4_graph (count_users c4_graph c4_root).2
        (get_kv2 c4_graph (count_users c4_graph c4_root).2 5) 1 "b" (.elem (some 12)) =
      attr_line 1 "b" "element" (uuid_str 12) ∧
    (kv2_trailing c4_graph c4_root).Sublist (count_users c4_graph c4_root).1 := by
  have h := dmx_c4_amended c4_graph c4_root (count_users c4_graph c4_root).2
      (get_kv2 c4_graph (count_users c4_graph c4_root).2 5) 1 "b" 12
      ⟨12, "B", "DmElement", false, []⟩ (by decide) (by decide) (by decide) (by decide)
  exact ⟨by decide, h.2.1 (by decide), h.2.2.2.2.2.2⟩

end Dmx
